import Mathlib

/-!
# Verification of the pydiskinfo entity graph, option parsing and renderer

Shallow embedding of the core of the `pydiskinfo` package:

* `src/pydiskinfo/argument_parsing.py` — the compact option-string parser
  (`SanitizedArguments`, `_parse_dp`, `_parse_pp`, `_parse_lp`) and the
  dynamic-attribute dictionary a `SanitizedArguments` instance carries;
* `src/pydiskinfo/system.py`, `linux_system.py`, `partition.py`,
  `logical_disk.py`, `physical_disk.py` — the entity-graph builders
  (`WindowsSystem._parse_system`, `LinuxSystem._parse_system`) and the edge
  methods (`System._add_partition`, `System._add_logical_disk`,
  `LinuxSystem._add_logical_disk`, `Partition.add_logical_disk`,
  `LogicalDisk.add_partition`, `PhysicalDisk.add_partition`);
* `src/pydiskinfo/pdi_util.py` — the renderer walk in `main`.

Python object references are modelled as indices into per-type stores held in
a state record `St`; methods that mutate an object become functions
`St → ... → St`.  Raw enumeration input (WMI records, the parsed lines of
`/proc/partitions` and of the `df` output) is passed in as explicit record
lists, mirroring the group structure the source extracts with its regexes.
-/

namespace PyDiskInfo

/-! ## Option parsing (`argument_parsing.py`) -/

/-- `SanitizedArguments._add_to_list` (argument_parsing.py:93-95): append
`item` to the list unless it is already present. -/
def addToList (someList : List String) (item : String) : List String :=
  if item ∈ someList then someList else someList ++ [item]

/-- Loop body of `SanitizedArguments._parse_dp` (argument_parsing.py:97-139),
threading `(return_list, list_partitions, size_human_readable)` through the
characters of the option string.  Unrecognized characters are ignored. -/
def parseDpGo : List Char → List String → Bool → Bool → List String × Bool × Bool
  | [], ret, listPartitions, human => (ret, listPartitions, human)
  | c :: cs, ret, listPartitions, human =>
    if c = 'P' then parseDpGo cs ret true human
    else if c = 's' then parseDpGo cs (addToList ret "Size") listPartitions true
    else if c = 'S' then parseDpGo cs (addToList ret "Size") listPartitions false
    else if c = 'i' then parseDpGo cs (addToList ret "Disk Number") listPartitions human
    else if c = 'd' then parseDpGo cs (addToList ret "Device I.D.") listPartitions human
    else if c = 'p' then parseDpGo cs (addToList ret "Path") listPartitions human
    else if c = 't' then parseDpGo cs (addToList ret "Media") listPartitions human
    else if c = 'n' then parseDpGo cs (addToList ret "Serial") listPartitions human
    else if c = 'm' then parseDpGo cs (addToList ret "Model") listPartitions human
    else if c = 'c' then parseDpGo cs (addToList ret "Sectors") listPartitions human
    else if c = 'b' then parseDpGo cs (addToList ret "Bytes per Sector") listPartitions human
    else if c = 'h' then parseDpGo cs (addToList ret "Heads") listPartitions human
    else if c = 'C' then parseDpGo cs (addToList ret "Cylinders") listPartitions human
    else if c = 'f' then parseDpGo cs (addToList ret "Firmware") listPartitions human
    else if c = 'I' then parseDpGo cs (addToList ret "Interface") listPartitions human
    else if c = 'M' then parseDpGo cs (addToList ret "Media Loaded") listPartitions human
    else if c = 'a' then parseDpGo cs (addToList ret "Status") listPartitions human
    else parseDpGo cs ret listPartitions human

/-- `SanitizedArguments._parse_dp`: returns
`(physical disk options, list_partitions, size_human_readable)`. -/
def parseDp (s : String) : List String × Bool × Bool :=
  parseDpGo s.toList [] false false

/-- Loop body of `SanitizedArguments._parse_pp` (argument_parsing.py:141-187),
threading `(return_list, list_logical_disks, show_physical_disk,
size_human_readable)`. -/
def parsePpGo : List Char → List String → Bool → Bool → Bool →
    List String × Bool × Bool × Bool
  | [], ret, listLds, showDisk, human => (ret, listLds, showDisk, human)
  | c :: cs, ret, listLds, showDisk, human =>
    if c = 'L' then parsePpGo cs ret true showDisk human
    else if c = 'D' then parsePpGo cs ret listLds true human
    else if c = 'b' then parsePpGo cs (addToList ret "Blocksize") listLds showDisk human
    else if c = 'B' then parsePpGo cs (addToList ret "Bootable") listLds showDisk human
    else if c = 'o' then parsePpGo cs (addToList ret "Active") listLds showDisk human
    else if c = 'x' then parsePpGo cs (addToList ret "Description") listLds showDisk human
    else if c = 'p' then parsePpGo cs (addToList ret "Path") listLds showDisk human
    else if c = 'd' then parsePpGo cs (addToList ret "Device I.D.") listLds showDisk human
    else if c = 'i' then parsePpGo cs (addToList ret "Disk Number") listLds showDisk human
    else if c = 'N' then parsePpGo cs (addToList ret "Partition Number") listLds showDisk human
    else if c = 'c' then parsePpGo cs (addToList ret "Blocks") listLds showDisk human
    else if c = 'r' then parsePpGo cs (addToList ret "Primary") listLds showDisk human
    else if c = 's' then parsePpGo cs (addToList ret "Size") listLds showDisk true
    else if c = 'S' then parsePpGo cs (addToList ret "Size") listLds showDisk false
    else if c = 'e' then parsePpGo cs (addToList ret "Offset") listLds showDisk human
    else if c = 't' then parsePpGo cs (addToList ret "Type") listLds showDisk human
    else parsePpGo cs ret listLds showDisk human

/-- `SanitizedArguments._parse_pp`: returns
`(partition options, list_logical_disks, show_physical_disk,
size_human_readable)`. -/
def parsePp (s : String) : List String × Bool × Bool × Bool :=
  parsePpGo s.toList [] false false false

/-- Loop body of `SanitizedArguments._parse_lp` (argument_parsing.py:189-229),
threading `(return_list, list_partitions, size_human_readable)`. -/
def parseLpGo : List Char → List String → Bool → Bool → List String × Bool × Bool
  | [], ret, listPartitions, human => (ret, listPartitions, human)
  | c :: cs, ret, listPartitions, human =>
    if c = 'P' then parseLpGo cs ret true human
    else if c = 'x' then parseLpGo cs (addToList ret "Description") listPartitions human
    else if c = 'd' then parseLpGo cs (addToList ret "Device I.D.") listPartitions human
    else if c = 't' then parseLpGo cs (addToList ret "Type") listPartitions human
    else if c = 'f' then parseLpGo cs (addToList ret "Filesystem") listPartitions human
    else if c = 'F' then parseLpGo cs (addToList ret "Free Space") listPartitions human
    else if c = 'U' then parseLpGo cs (addToList ret "Max Component Length") listPartitions human
    else if c = 'v' then parseLpGo cs (addToList ret "Name") listPartitions human
    else if c = 'M' then parseLpGo cs (addToList ret "Mounted") listPartitions human
    else if c = 'p' then parseLpGo cs (addToList ret "Path") listPartitions human
    else if c = 's' then parseLpGo cs (addToList ret "Size") listPartitions true
    else if c = 'S' then parseLpGo cs (addToList ret "Size") listPartitions false
    else if c = 'V' then parseLpGo cs (addToList ret "Label") listPartitions human
    else if c = 'n' then parseLpGo cs (addToList ret "Serial") listPartitions human
    else parseLpGo cs ret listPartitions human

/-- `SanitizedArguments._parse_lp`: returns
`(logical disk options, list_partitions, size_human_readable)`. -/
def parseLp (s : String) : List String × Bool × Bool :=
  parseLpGo s.toList [] false false

/-- A Python attribute value as stored on a `SanitizedArguments` instance. -/
inductive PyVal where
  | bool (b : Bool)
  | str (s : String)
  | strList (l : List String)
  deriving Repr, DecidableEq

/-- Python truthiness of the attribute values used here. -/
def PyVal.truthy : PyVal → Bool
  | .bool b => b
  | .str s => decide (s ≠ "")
  | .strList l => decide (l ≠ [])

/-- `setattr` on a dynamic attribute dictionary: later assignments to the same
name override earlier ones. -/
def setAttr (m : List (String × PyVal)) (name : String) (v : PyVal) :
    List (String × PyVal) :=
  if m.any (fun kv => kv.1 == name) then
    m.map (fun kv => if kv.1 == name then (name, v) else kv)
  else
    m ++ [(name, v)]

/-- `getattr`: `none` models an `AttributeError`. -/
def getAttr (m : List (String × PyVal)) (name : String) : Option PyVal :=
  (m.find? (fun kv => kv.1 == name)).map (·.2)

/-- The dictionary handed to `SanitizedArguments.__init__` (the `vars` of the
argparse result); a `none` field models a missing key (`KeyError`). -/
structure ArgsDict where
  l : Option Bool
  dp : Option String
  pp : Option String
  lp : Option String
  p : Option Bool
  n : Option String
  deriving Repr, DecidableEq

/-- `SanitizedArguments.__init__` (argument_parsing.py:29-91): the exact
sequence of attribute assignments performed on `self`.  The values
`physical_disk_list_partitions`, `partition_list_logical_disks`,
`partition_show_physical_disk` and `logical_disk_list_partitions` unpacked
from the three parsers are bound to plain local variables in the source, not
to attributes, so they do not appear in the resulting attribute dictionary;
they only feed the derived `list_partitions` / `partitions_list_children`
attributes at the end of the constructor. -/
def sanitizedArguments (args : ArgsDict) : List (String × PyVal) :=
  let m := setAttr [] "list_partitions" (.bool false)
  let m := setAttr m "partitions_list_children" (.bool false)
  let ldo := args.l.getD false
  let m := setAttr m "logical_disk_orientation" (.bool ldo)
  let dpRes := match args.dp with
    | some s => parseDp s
    | none => ([], false, false)
  let m := setAttr m "physical_disk_options" (.strList dpRes.1)
  let physicalDiskListPartitions := dpRes.2.1
  let m := setAttr m "physical_disk_size_human_readable" (.bool dpRes.2.2)
  let ppRes := match args.pp with
    | some s => parsePp s
    | none => ([], false, false, false)
  let m := setAttr m "partition_options" (.strList ppRes.1)
  let partitionListLogicalDisks := ppRes.2.1
  let partitionShowPhysicalDisk := ppRes.2.2.1
  let m := setAttr m "partition_size_human_readable" (.bool ppRes.2.2.2)
  let lpRes := match args.lp with
    | some s => parseLp s
    | none => ([], false, false)
  let m := setAttr m "logical_disk_options" (.strList lpRes.1)
  let logicalDiskListPartitions := lpRes.2.1
  let m := setAttr m "logical_disk_size_human_readable" (.bool lpRes.2.2)
  let lfp := args.p.getD false
  let m := setAttr m "list_from_partitions" (.bool lfp)
  let sysName := match args.n with
    | some s => if s ≠ "" then s else ""
    | none => ""
  let m := setAttr m "system_name" (.str sysName)
  let m :=
    if ldo && logicalDiskListPartitions then
      setAttr m "list_partitions" (.bool true)
    else if !ldo && physicalDiskListPartitions then
      setAttr m "list_partitions" (.bool true)
    else m
  let m := if lfp then setAttr m "list_partitions" (.bool true) else m
  let m :=
    if partitionListLogicalDisks && !ldo then
      setAttr m "partitions_list_children" (.bool true)
    else if partitionShowPhysicalDisk && ldo then
      setAttr m "partitions_list_children" (.bool true)
    else m
  m

/-! ## Entity graph data model

Python objects live in per-type stores; an object reference is the index of
the object in its store.  Only the fields the verified claims touch are
modelled; the remaining schema entries of `PhysicalDisk.__init__`,
`Partition.__init__` and `LogicalDisk.__init__` are scalar defaults that none
of the claims read. -/

/-- A `Partition` object (partition.py:33-57): `Device I.D.` and `Path`
default to `""`, `isdummy` to `False`; `_physical_disk` is the owning disk
reference and `_logical_disks` the ordered edge list. -/
structure PartObj where
  deviceId : String
  path : String
  isdummy : Bool
  disk : Option Nat
  logicalDisks : List Nat
  deriving Repr, DecidableEq, Inhabited

/-- A `LogicalDisk` object (logical_disk.py:31-48): `Name`, `Device I.D.` and
`Path` default to `""`; `_partitions` is the ordered edge list. -/
structure LDObj where
  name : String
  deviceId : String
  path : String
  partitions : List Nat
  deriving Repr, DecidableEq, Inhabited

/-- A `PhysicalDisk` object (physical_disk.py:29-49) with the
`LinuxPhysicalDisk._major_number` attribute and the ordered `_partitions`
edge list. -/
structure DiskObj where
  majorNumber : Nat
  name : String
  path : String
  partitions : List Nat
  deriving Repr, DecidableEq, Inhabited

/-- The object stores plus the `System` instance lists `_physical_disks`,
`_partitions` and `_logical_disks` (system.py:64-71), held as reference
lists. -/
structure St where
  disks : List DiskObj
  parts : List PartObj
  lds : List LDObj
  sysDisks : List Nat
  sysParts : List Nat
  sysLds : List Nat
  deriving Repr, DecidableEq, Inhabited

/-- Dereference a partition object. -/
def St.part (st : St) (p : Nat) : PartObj := st.parts.getD p default

/-- Dereference a logical disk object. -/
def St.ld (st : St) (l : Nat) : LDObj := st.lds.getD l default

/-- Dereference a physical disk object. -/
def St.disk (st : St) (d : Nat) : DiskObj := st.disks.getD d default

/-- Overwrite a partition object in its store. -/
def St.setPart (st : St) (p : Nat) (o : PartObj) : St :=
  { st with parts := st.parts.set p o }

/-- Overwrite a logical disk object in its store. -/
def St.setLd (st : St) (l : Nat) (o : LDObj) : St :=
  { st with lds := st.lds.set l o }

/-- Overwrite a physical disk object in its store. -/
def St.setDisk (st : St) (d : Nat) (o : DiskObj) : St :=
  { st with disks := st.disks.set d o }

/-- `Partition.add_logical_disk` (partition.py:59-66): append the logical
disk reference unless one with the same `Device I.D.` is already attached. -/
def partitionAddLogicalDisk (st : St) (p l : Nat) : St :=
  if (st.part p).logicalDisks.any (fun l2 => (st.ld l2).deviceId == (st.ld l).deviceId) then
    st
  else
    st.setPart p { st.part p with logicalDisks := (st.part p).logicalDisks ++ [l] }

/-- `LogicalDisk.add_partition` (logical_disk.py:50-52): plain append, no
deduplication. -/
def logicalDiskAddPartition (st : St) (l p : Nat) : St :=
  st.setLd l { st.ld l with partitions := (st.ld l).partitions ++ [p] }

/-- `PhysicalDisk.add_partition` (physical_disk.py:51-53): plain append, no
deduplication. -/
def diskAddPartition (st : St) (d p : Nat) : St :=
  st.setDisk d { st.disk d with partitions := (st.disk d).partitions ++ [p] }

/-- `System._add_partition` (system.py:92-100): scan the registered flat
partition list for a matching `Device I.D.`; return the first match, or
register (and here also allocate) the new object. -/
def systemAddPartition (st : St) (pObj : PartObj) : St × Nat :=
  match st.sysParts.find? (fun r => (st.part r).deviceId == pObj.deviceId) with
  | some r => (st, r)
  | none =>
    let r := st.parts.length
    ({ st with parts := st.parts ++ [pObj], sysParts := st.sysParts ++ [r] }, r)

/-- `System._add_logical_disk` (system.py:82-90): find-or-create over the
flat logical disk list, keyed by `Device I.D.`. -/
def systemAddLogicalDisk (st : St) (lObj : LDObj) : St × Nat :=
  match st.sysLds.find? (fun r => (st.ld r).deviceId == lObj.deviceId) with
  | some r => (st, r)
  | none =>
    let r := st.lds.length
    ({ st with lds := st.lds ++ [lObj], sysLds := st.sysLds ++ [r] }, r)

/-- `LinuxSystem._add_logical_disk` (linux_system.py:161-170): find-or-create
over the flat logical disk list, keyed by `Name`. -/
def linuxAddLogicalDisk (st : St) (lObj : LDObj) : St × Nat :=
  match st.sysLds.find? (fun r => (st.ld r).name == lObj.name) with
  | some r => (st, r)
  | none =>
    let r := st.lds.length
    ({ st with lds := st.lds ++ [lObj], sysLds := st.sysLds ++ [r] }, r)

/-! ## The Linux builder (`linux_system.py`) -/

/-- One line of `/proc/partitions` as extracted by the regex in
`LinuxSystem._get_block_devices` (linux_system.py:39-54): the four groups
`(major, minor, blocks, name)`.  `minor` and `blocks` are given as numbers
because every use in the source converts the digit-only groups with
`int(...)`; `major` stays a string because the source compares it as one. -/
structure BlockDev where
  major : String
  minor : Nat
  blocks : Nat
  name : String
  deriving Repr, DecidableEq

/-- One mount line of the `df` output as extracted by the regex in
`LinuxSystem._parse_system` (linux_system.py:116-134): the five groups
`(source, fstype, size, avail, target)`. -/
structure DfRec where
  source : String
  fstype : String
  size : Nat
  avail : Nat
  target : String
  deriving Repr, DecidableEq

/-- Allocate and register a `LinuxPhysicalDisk` (linux_system.py:173-203):
`Name` is the device name, `Path` is `/dev/<name>`. -/
def addLinuxDisk (st : St) (bd : BlockDev) : St :=
  let dObj : DiskObj :=
    { majorNumber := bd.major.toNat?.getD 0
      name := bd.name
      path := "/dev/" ++ bd.name
      partitions := [] }
  { st with
    disks := st.disks ++ [dObj]
    sysDisks := st.sysDisks ++ [st.disks.length] }

/-- A `LinuxPartition` (linux_system.py:206-232): `Device I.D.` is the device
name, `Path` is `/dev/<name>`. -/
def mkLinuxPart (d : Nat) (bd : BlockDev) : PartObj :=
  { deviceId := bd.name
    path := "/dev/" ++ bd.name
    isdummy := false
    disk := some d
    logicalDisks := [] }

/-- A `LinuxLogicalDisk` (linux_system.py:235-253): `Path`, `Device I.D.` and
`Name` are all the mount target path. -/
def mkLinuxLd (df : DfRec) : LDObj :=
  { name := df.target
    deviceId := df.target
    path := df.target
    partitions := [] }

/-- The `DummyPartition` synthesized at linux_system.py:153-156
(partition.py:85-89): default `Device I.D.` and `Path` (both `""`),
`isdummy` set, wrapping disk `d`, with `add_logical_disk` applied to the
checked logical disk during construction. -/
def mkDummyPart (d l : Nat) : PartObj :=
  { deviceId := ""
    path := ""
    isdummy := true
    disk := some d
    logicalDisks := [l] }

/-- Registration of a fresh dummy partition (linux_system.py:153-158):
`self._partitions.append(dummy_partition)` then
`each_disk.add_partition(dummy_partition)`. -/
def linuxDummyRegister (st : St) (d l : Nat) : St :=
  diskAddPartition
    { st with
      parts := st.parts ++ [mkDummyPart d l]
      sysParts := st.sysParts ++ [st.parts.length] }
    d st.parts.length

/-- Body of the partition scan for one `df` mount line
(linux_system.py:145-149). -/
def linuxDfPartScan (ldObj : LDObj) (source : String) (st2 : St) (p : Nat) : St :=
  if (st2.part p).path == source then
    let res := linuxAddLogicalDisk st2 ldObj
    logicalDiskAddPartition (partitionAddLogicalDisk res.1 p res.2) res.2 p
  else st2

/-- Body of the physical disk scan for one `df` mount line
(linux_system.py:150-159). -/
def linuxDfDiskScan (ldObj : LDObj) (source : String) (st2 : St) (d : Nat) : St :=
  if (st2.disk d).path == source then
    let res := linuxAddLogicalDisk st2 ldObj
    logicalDiskAddPartition (linuxDummyRegister res.1 d res.2) res.2 res.1.parts.length
  else st2

/-- Processing of one `df` mount line (linux_system.py:137-159): wire the
fresh logical disk to every registered partition whose `Path` equals the
mount source, then synthesize a `DummyPartition` for every physical disk
whose `Path` equals the mount source directly. -/
def linuxDfStep (st : St) (df : DfRec) : St :=
  let st1 := st.sysParts.foldl (linuxDfPartScan (mkLinuxLd df) df.source) st
  st1.sysDisks.foldl (linuxDfDiskScan (mkLinuxLd df) df.source) st1

/-- Body of the partition loop of `LinuxSystem._parse_system`
(linux_system.py:99-115): a block device with positive minor number becomes a
`LinuxPartition` attached to the first disk whose major number matches; with
no matching disk the object is dropped. -/
def linuxPartStep (st : St) (bd : BlockDev) : St :=
  if bd.minor > 0 then
    match st.sysDisks.find? (fun d => toString (st.disk d).majorNumber == bd.major) with
    | some d =>
      let stB := diskAddPartition
        { st with parts := st.parts ++ [mkLinuxPart d bd] } d st.parts.length
      { stB with sysParts := stB.sysParts ++ [st.parts.length] }
    | none => st
  else st

/-- `LinuxSystem._parse_system` (linux_system.py:83-159): physical disks for
the SCSI (major 8, minor divisible by 16) and metadisk (major 9) block
devices, then one `LinuxPartition` for every block device with positive minor
whose major matches a created disk, then the `df` mount lines. -/
def linuxParse (bds : List BlockDev) (dfs : List DfRec) : St :=
  let st0 : St := ⟨[], [], [], [], [], []⟩
  let st1 := bds.foldl
    (fun st bd =>
      if bd.major == "8" && bd.minor % 16 == 0 then addLinuxDisk st bd else st)
    st0
  let st2 := bds.foldl
    (fun st bd => if bd.major == "9" then addLinuxDisk st bd else st)
    st1
  dfs.foldl linuxDfStep (bds.foldl linuxPartStep st2)

/-! ## The Windows builder (`system.py`, `WindowsSystem`) -/

/-- A `Win32_LogicalDisk` record: the `DeviceID` field read by
`WindowsLogicalDisk` (logical_disk.py:129-141), which also becomes `Name`. -/
structure WinLdRec where
  deviceId : String
  deriving Repr, DecidableEq, Inhabited

/-- A `Win32_DiskPartition` record: its `DeviceID` plus the associated
logical disk records. -/
structure WinPartRec where
  deviceId : String
  lds : List WinLdRec
  deriving Repr, DecidableEq, Inhabited

/-- A `Win32_DiskDrive` record: its `DeviceID` (which `WindowsPhysicalDisk`
also stores as `Path`) plus the associated partition records. -/
structure WinDiskRec where
  deviceId : String
  parts : List WinPartRec
  deriving Repr, DecidableEq, Inhabited

/-- The `WindowsLogicalDisk` built from one `Win32_LogicalDisk` record
(logical_disk.py:101-141): `Name` equals `Device I.D.`. -/
def mkWinLd (lr : WinLdRec) : LDObj :=
  { name := lr.deviceId, deviceId := lr.deviceId, path := "", partitions := [] }

/-- The `WindowsPartition` built from one `Win32_DiskPartition` record
(partition.py:119-134) under disk `d`. -/
def mkWinPart (pr : WinPartRec) (d : Nat) : PartObj :=
  { deviceId := pr.deviceId, path := "", isdummy := false
    disk := some d, logicalDisks := [] }

/-- Body of the logical disk loop of `WindowsSystem._add_logical_disks`
(system.py:299-306): find-or-create by `Device I.D.`, then wire both edge
directions (`LogicalDisk.add_partition` first, `Partition.add_logical_disk`
second). -/
def windowsLdStep (p : Nat) (st2 : St) (lr : WinLdRec) : St :=
  let res := systemAddLogicalDisk st2 (mkWinLd lr)
  partitionAddLogicalDisk (logicalDiskAddPartition res.1 res.2 p) p res.2

/-- `WindowsSystem._add_logical_disks` (system.py:294-306). -/
def windowsAddLogicalDisks (st : St) (ldRecs : List WinLdRec) (p : Nat) : St :=
  ldRecs.foldl (windowsLdStep p) st

/-- Body of the partition loop of `WindowsSystem._add_partitions`
(system.py:313-320): find-or-create by `Device I.D.`, append the result to
the owning disk's list, then process its logical disks. -/
def windowsPartStep (d : Nat) (st2 : St) (pr : WinPartRec) : St :=
  let res := systemAddPartition st2 (mkWinPart pr d)
  windowsAddLogicalDisks (diskAddPartition res.1 d res.2) pr.lds res.2

/-- `WindowsSystem._add_partitions` (system.py:308-320). -/
def windowsAddPartitions (st : St) (dRec : WinDiskRec) (d : Nat) : St :=
  dRec.parts.foldl (windowsPartStep d) st

/-- Body of the disk loop of `WindowsSystem._parse_system`
(system.py:332-335): one `WindowsPhysicalDisk` per record (disks are never
deduplicated), then its partitions. -/
def windowsDiskStep (st : St) (dr : WinDiskRec) : St :=
  let dObj : DiskObj :=
    { majorNumber := 0, name := dr.deviceId, path := dr.deviceId, partitions := [] }
  windowsAddPartitions
    { st with disks := st.disks ++ [dObj], sysDisks := st.sysDisks ++ [st.disks.length] }
    dr st.disks.length

/-- `WindowsSystem._parse_system` (system.py:322-335), after the WMI cursor
has been opened. -/
def windowsParse (recs : List WinDiskRec) : St :=
  recs.foldl windowsDiskStep ⟨[], [], [], [], [], []⟩

/-! ## The renderer walk (`pdi_util.py`, `main`)

`main` prints the system line and then walks the graph, keeping a running
`indent` counter and printing each entity line behind `" " * indent`.  A line
is modelled as the number of printed spaces (Python renders a negative
`indent` as zero spaces, matching `Int.toNat`) together with a tag naming the
entity whose `str_*` rendering follows the spaces. -/

/-- Which entity a printed line describes. -/
inductive LineTag where
  | system
  | disk (d : Option Nat)
  | partitionLine (p : Nat)
  | logicalDisk (l : Nat)
  deriving Repr, DecidableEq

/-- One printed line: leading space count and the rendered entity. -/
structure Line where
  spaces : Nat
  tag : LineTag
  deriving Repr, DecidableEq

/-- `print(f'{" " * indent}...')` — negative indents print no spaces. -/
def emit (indent : Int) (tag : LineTag) : Line := ⟨indent.toNat, tag⟩

/-- Body of the partition loop in the disk-first walk (pdi_util.py:319-338):
a non-dummy partition prints its line at the running indent and raises
the indent by two; a dummy prints nothing and keeps the indent; in both
cases the attached logical disk lines follow when the toggle is set, and
`indent -= 2` runs unconditionally at the end of the iteration. -/
def diskFirstPartStep (st : St) (listLogicalDisks : Bool) (acc : Int × List Line)
    (p : Nat) : Int × List Line :=
  let step :=
    if !(st.part p).isdummy then
      (acc.1 + 2, acc.2 ++ [emit acc.1 (.partitionLine p)])
    else (acc.1, acc.2)
  let lines2 :=
    if listLogicalDisks then
      step.2 ++ (st.part p).logicalDisks.map (fun l => emit step.1 (.logicalDisk l))
    else step.2
  (step.1 - 2, lines2)

/-- Body of the disk loop in the disk-first walk (pdi_util.py:311-339). -/
def diskFirstDiskStep (st : St) (listPartitions listLogicalDisks : Bool)
    (acc : Int × List Line) (d : Nat) : Int × List Line :=
  let lines := acc.2 ++ [emit acc.1 (.disk (some d))]
  let indent := acc.1 + 2
  let inner :=
    if listPartitions then
      (st.disk d).partitions.foldl (diskFirstPartStep st listLogicalDisks) (indent, lines)
    else (indent, lines)
  (inner.1 - 2, inner.2)

/-- The disk-first walk of `main` (pdi_util.py:308-339) with the two
structural toggles `physical_disk_list_partitions` and
`partition_list_logical_disks` passed as values (how `main` obtains them from
the configuration object is modelled separately by `mainLines`).  The system
line is printed first (pdi_util.py:261) and the indent counter starts at
two. -/
def diskFirstLinesT (listPartitions listLogicalDisks : Bool) (st : St) : List Line :=
  (st.sysDisks.foldl (diskFirstDiskStep st listPartitions listLogicalDisks)
    (2, [⟨0, .system⟩])).2

/-- Body of the partition loop in the logical-disk-first walk
(pdi_util.py:275-290): dummy partitions print no line and skip the
`indent += 2`, but the owning-disk line is still printed when its toggle is
set; `indent -= 2` runs unconditionally. -/
def ldFirstPartStep (st : St) (showPhysicalDisk : Bool) (acc : Int × List Line)
    (p : Nat) : Int × List Line :=
  let step :=
    if !(st.part p).isdummy then
      (acc.1 + 2, acc.2 ++ [emit acc.1 (.partitionLine p)])
    else (acc.1, acc.2)
  let lines2 :=
    if showPhysicalDisk then
      step.2 ++ [emit step.1 (.disk (st.part p).disk)]
    else step.2
  (step.1 - 2, lines2)

/-- Body of the logical disk loop in the logical-disk-first walk
(pdi_util.py:265-291). -/
def ldFirstLdStep (st : St) (listPartitions showPhysicalDisk : Bool)
    (acc : Int × List Line) (l : Nat) : Int × List Line :=
  let lines := acc.2 ++ [emit acc.1 (.logicalDisk l)]
  let indent := acc.1 + 2
  let inner :=
    if listPartitions then
      (st.ld l).partitions.foldl (ldFirstPartStep st showPhysicalDisk) (indent, lines)
    else (indent, lines)
  (inner.1 - 2, inner.2)

/-- The logical-disk-first walk of `main` (pdi_util.py:262-291) with the
structural toggles `logical_disk_list_partitions` and
`partition_show_physical_disk` passed as values. -/
def logicalDiskFirstLinesT (listPartitions showPhysicalDisk : Bool) (st : St) :
    List Line :=
  (st.sysLds.foldl (ldFirstLdStep st listPartitions showPhysicalDisk)
    (2, [⟨0, .system⟩])).2

/-- The partitions-only walk from the disk orientation (pdi_util.py:340-351)
with the `partition_list_logical_disks` toggle passed as a value: every
registered partition is printed — there is no `isdummy` test in this
branch — with its logical disks optionally below it. -/
def partitionsOnlyDiskStep (st : St) (listLogicalDisks : Bool)
    (acc : Int × List Line) (p : Nat) : Int × List Line :=
  let lines := acc.2 ++ [emit acc.1 (.partitionLine p)]
  let indent := acc.1 + 2
  let lines2 :=
    if listLogicalDisks then
      lines ++ (st.part p).logicalDisks.map (fun l => emit indent (.logicalDisk l))
    else lines
  (indent - 2, lines2)

/-- The partitions-only walk from the disk orientation (pdi_util.py:340-351)
with the `partition_list_logical_disks` toggle passed as a value: every
registered partition is printed — there is no `isdummy` test in this
branch — with its logical disks optionally below it. -/
def partitionsOnlyDiskLinesT (listLogicalDisks : Bool) (st : St) : List Line :=
  (st.sysParts.foldl (partitionsOnlyDiskStep st listLogicalDisks)
    (2, [⟨0, .system⟩])).2

/-- The partitions-only walk from the logical-disk orientation
(pdi_util.py:292-307): every registered partition is printed (again without
an `isdummy` test), optionally followed by its owning disk's line. -/
def partitionsOnlyLogicalStep (st : St) (showPhysicalDisk : Bool)
    (acc : Int × List Line) (p : Nat) : Int × List Line :=
  let lines := acc.2 ++ [emit acc.1 (.partitionLine p)]
  let indent := acc.1 + 2
  let lines2 :=
    if showPhysicalDisk then
      lines ++ [emit indent (.disk (st.part p).disk)]
    else lines
  (indent - 2, lines2)

/-- The partitions-only walk from the logical-disk orientation
(pdi_util.py:292-307): every registered partition is printed (again without
an `isdummy` test), optionally followed by its owning disk's line. -/
def partitionsOnlyLogicalLinesT (showPhysicalDisk : Bool) (st : St) : List Line :=
  (st.sysParts.foldl (partitionsOnlyLogicalStep st showPhysicalDisk)
    (2, [⟨0, .system⟩])).2

/-- A Python exception escaping `main`. -/
inductive PyErr where
  | attributeError (name : String)
  deriving Repr, DecidableEq

/-- An attribute read on the `SanitizedArguments` object: raises
`AttributeError` when the constructor never assigned the name. -/
def getattrArgs (m : List (String × PyVal)) (name : String) : Except PyErr PyVal :=
  match getAttr m name with
  | some v => .ok v
  | none => .error (.attributeError name)

/-- `main` (pdi_util.py:257-351) after a successful build: prints the system
line, chooses the walk mode from `logical_disk_orientation` and
`list_from_partitions`, and reads the structural toggles from the
configuration object by attribute name exactly where the source reads them
(per disk at line 318, per partition at lines 274, 282, 299, 330 and 344).
An attribute the configuration object does not define aborts the walk with
`AttributeError`. -/
def mainLines (args : List (String × PyVal)) (st : St) : Except PyErr (List Line) := do
  let start : Int × List Line := (2, [⟨0, .system⟩])
  let ldo ← getattrArgs args "logical_disk_orientation"
  let lfp ← getattrArgs args "list_from_partitions"
  if ldo.truthy then
    if !lfp.truthy then
      let res ← st.sysLds.foldlM
        (fun (acc : Int × List Line) l => do
          let lines := acc.2 ++ [emit acc.1 (.logicalDisk l)]
          let indent := acc.1 + 2
          let llp ← getattrArgs args "logical_disk_list_partitions"
          let inner ←
            if llp.truthy then
              (st.ld l).partitions.foldlM
                (fun (acc2 : Int × List Line) p => do
                  let step :=
                    if !(st.part p).isdummy then
                      (acc2.1 + 2, acc2.2 ++ [emit acc2.1 (.partitionLine p)])
                    else (acc2.1, acc2.2)
                  let spd ← getattrArgs args "partition_show_physical_disk"
                  let lines2 :=
                    if spd.truthy then
                      step.2 ++ [emit step.1 (.disk (st.part p).disk)]
                    else step.2
                  pure (step.1 - 2, lines2))
                (indent, lines)
            else pure (indent, lines)
          pure (inner.1 - 2, inner.2))
        start
      pure res.2
    else
      let res ← st.sysParts.foldlM
        (fun (acc : Int × List Line) p => do
          let lines := acc.2 ++ [emit acc.1 (.partitionLine p)]
          let indent := acc.1 + 2
          let spd ← getattrArgs args "partition_show_physical_disk"
          let lines :=
            if spd.truthy then
              lines ++ [emit indent (.disk (st.part p).disk)]
            else lines
          pure (indent - 2, lines))
        start
      pure res.2
  else
    if !lfp.truthy then
      let res ← st.sysDisks.foldlM
        (fun (acc : Int × List Line) d => do
          let lines := acc.2 ++ [emit acc.1 (.disk (some d))]
          let indent := acc.1 + 2
          let lp ← getattrArgs args "physical_disk_list_partitions"
          let inner ←
            if lp.truthy then
              (st.disk d).partitions.foldlM
                (fun (acc2 : Int × List Line) p => do
                  let step :=
                    if !(st.part p).isdummy then
                      (acc2.1 + 2, acc2.2 ++ [emit acc2.1 (.partitionLine p)])
                    else (acc2.1, acc2.2)
                  let lld ← getattrArgs args "partition_list_logical_disks"
                  let lines2 :=
                    if lld.truthy then
                      step.2 ++ (st.part p).logicalDisks.map
                        (fun l => emit step.1 (.logicalDisk l))
                    else step.2
                  pure (step.1 - 2, lines2))
                (indent, lines)
            else pure (indent, lines)
          pure (inner.1 - 2, inner.2))
        start
      pure res.2
    else
      let res ← st.sysParts.foldlM
        (fun (acc : Int × List Line) p => do
          let lines := acc.2 ++ [emit acc.1 (.partitionLine p)]
          let indent := acc.1 + 2
          let lld ← getattrArgs args "partition_list_logical_disks"
          let lines :=
            if lld.truthy then
              lines ++ (st.part p).logicalDisks.map (fun l => emit indent (.logicalDisk l))
            else lines
          pure (indent - 2, lines))
        start
      pure res.2

/-! ## Hard source failures (`linux_system.py`, `system.py`)

The builders touch the raw enumeration source through `open`
(`/proc/partitions`), `subprocess.run` (`df`) and `wmi.WMI()`.  Each
touchpoint is modelled by its possible outcomes; the exception a failed
outcome raises in Python is carried explicitly so that the `except` clauses
of the source can be mirrored one to one. -/

/-- Outcome of `open('/proc/partitions', 'r')`: the parsed block device
lines, `FileNotFoundError`, or `PermissionError`. -/
inductive ProcOpen where
  | content (bds : List BlockDev)
  | fileNotFound
  | permissionDenied
  deriving Repr, DecidableEq

/-- Outcome of `subprocess.run(('df', ...))`: the parsed mount lines, or an
`OSError` (which includes a missing `df` binary). -/
inductive DfRun where
  | output (dfs : List DfRec)
  | osError
  deriving Repr, DecidableEq

/-- Outcome of `wmi.WMI()`: the disk records, `wmi.x_access_denied`, or
`wmi.x_wmi_authentication`. -/
inductive WmiOpen where
  | cursor (recs : List WinDiskRec)
  | accessDenied
  | authenticationFailed
  deriving Repr, DecidableEq

/-- An exception escaping a builder: the package's typed
`PyDiskInfoParseError` with its message and the chained cause
(`raise ... from err`), or an unhandled builtin exception propagating
unchanged. -/
inductive BuildErr where
  | parseError (msg : String) (cause : Option String)
  | uncaught (exc : String)
  deriving Repr, DecidableEq

/-- `LinuxSystem._get_block_devices` (linux_system.py:39-54): only
`FileNotFoundError` is converted into the typed `PyDiskInfoParseError`; a
`PermissionError` from `open` matches no `except` clause and propagates
unchanged. -/
def linuxGetBlockDevices (proc : ProcOpen) : Except BuildErr (List BlockDev) :=
  match proc with
  | .content bds => .ok bds
  | .fileNotFound =>
    .error (.parseError "Missing /proc/partitions. Giving up parsing."
      (some "FileNotFoundError"))
  | .permissionDenied => .error (.uncaught "PermissionError")

/-- `LinuxSystem._parse_system` (linux_system.py:83-159) as a whole: block
devices, then the `df` run guarded by `except OSError`, then the graph
construction.  The constructor either returns a fully built graph or raises;
no partially built `System` object is ever handed to the caller. -/
def linuxBuild (proc : ProcOpen) (df : DfRun) : Except BuildErr St := do
  let bds ← linuxGetBlockDevices proc
  match df with
  | .output dfs => pure (linuxParse bds dfs)
  | .osError =>
    throw (.parseError "Cant find the \"df\" command." (some "OSError"))

/-- `WindowsSystem._parse_system` (system.py:322-335): the two WMI failure
modes are converted into the typed `PyDiskInfoParseError`; a cursor yields
the full graph. -/
def windowsBuild (w : WmiOpen) : Except BuildErr St :=
  match w with
  | .cursor recs => .ok (windowsParse recs)
  | .accessDenied =>
    .error (.parseError "Access to wmi is denied." (some "x_access_denied"))
  | .authenticationFailed =>
    .error (.parseError "Authentication error when opening wmi"
      (some "x_wmi_authentication"))

/-! ## List helper lemmas -/

theorem getD_set_self {α : Type} (l : List α) (i : Nat) (o d : α) (h : i < l.length) :
    (l.set i o).getD i d = o := by
  simp [List.getD_eq_getElem?_getD, List.getElem?_set_self, h]

theorem getD_set_ne {α : Type} (l : List α) (i j : Nat) (h : i ≠ j) (o d : α) :
    (l.set i o).getD j d = l.getD j d := by
  simp [List.getD_eq_getElem?_getD, List.getElem?_set_ne, h]

theorem getD_append_left {α : Type} (l1 : List α) (x d : α) (i : Nat)
    (h : i < l1.length) : (l1 ++ [x]).getD i d = l1.getD i d := by
  simp [List.getD_eq_getElem?_getD, List.getElem?_append, h]

theorem getD_append_self {α : Type} (l1 : List α) (x d : α) :
    (l1 ++ [x]).getD l1.length d = x := by
  simp [List.getD_eq_getElem?_getD]

theorem getD_set_cases {α : Type} (l : List α) (i j : Nat) (o d : α) :
    (l.set i o).getD j d = if i = j ∧ i < l.length then o else l.getD j d := by
  by_cases h1 : i = j
  · subst h1
    by_cases h2 : i < l.length
    · simp only [h2, and_true, if_pos (And.intro rfl h2)]
      exact getD_set_self l i o d h2
    · rw [List.set_eq_of_length_le (Nat.le_of_not_lt h2)]
      simp [h2]
  · rw [getD_set_ne l i j h1 o d]
    simp [h1]

theorem foldl_preserve_mem {α β : Type} (P : α → Prop) (f : α → β → α) (l : List β)
    (h : ∀ a b, b ∈ l → P a → P (f a b)) (a : α) (ha : P a) : P (l.foldl f a) := by
  induction l generalizing a with
  | nil => exact ha
  | cons x xs ih =>
    exact ih (fun a2 b hb => h a2 b (List.mem_cons_of_mem x hb))
      (f a x) (h a x (List.mem_cons_self x xs) ha)

/-! ## Effect lemmas for the edge operations -/

theorem setPart_ld (st : St) (p : Nat) (o : PartObj) (x : Nat) :
    ((st.setPart p o).ld x) = st.ld x := rfl

theorem setPart_disk (st : St) (p : Nat) (o : PartObj) (x : Nat) :
    ((st.setPart p o).disk x) = st.disk x := rfl

theorem setPart_parts_length (st : St) (p : Nat) (o : PartObj) :
    (st.setPart p o).parts.length = st.parts.length := by
  simp [St.setPart]

theorem setPart_part_cases (st : St) (p x : Nat) (o : PartObj) :
    ((st.setPart p o).part x) = if p = x ∧ p < st.parts.length then o else st.part x :=
  getD_set_cases st.parts p x o default

theorem setPart_part_self (st : St) (p : Nat) (o : PartObj) (h : p < st.parts.length) :
    ((st.setPart p o).part p) = o :=
  getD_set_self st.parts p o default h

theorem setPart_part_ne (st : St) (p x : Nat) (o : PartObj) (h : p ≠ x) :
    ((st.setPart p o).part x) = st.part x :=
  getD_set_ne st.parts p x h o default

theorem setLd_part (st : St) (l : Nat) (o : LDObj) (x : Nat) :
    ((st.setLd l o).part x) = st.part x := rfl

theorem setLd_disk (st : St) (l : Nat) (o : LDObj) (x : Nat) :
    ((st.setLd l o).disk x) = st.disk x := rfl

theorem setLd_lds_length (st : St) (l : Nat) (o : LDObj) :
    (st.setLd l o).lds.length = st.lds.length := by
  simp [St.setLd]

theorem setLd_ld_cases (st : St) (l x : Nat) (o : LDObj) :
    ((st.setLd l o).ld x) = if l = x ∧ l < st.lds.length then o else st.ld x :=
  getD_set_cases st.lds l x o default

theorem setLd_ld_self (st : St) (l : Nat) (o : LDObj) (h : l < st.lds.length) :
    ((st.setLd l o).ld l) = o :=
  getD_set_self st.lds l o default h

theorem setLd_ld_ne (st : St) (l x : Nat) (o : LDObj) (h : l ≠ x) :
    ((st.setLd l o).ld x) = st.ld x :=
  getD_set_ne st.lds l x h o default

theorem setDisk_part (st : St) (d : Nat) (o : DiskObj) (x : Nat) :
    ((st.setDisk d o).part x) = st.part x := rfl

theorem setDisk_ld (st : St) (d : Nat) (o : DiskObj) (x : Nat) :
    ((st.setDisk d o).ld x) = st.ld x := rfl

theorem setDisk_disks_length (st : St) (d : Nat) (o : DiskObj) :
    (st.setDisk d o).disks.length = st.disks.length := by
  simp [St.setDisk]

/-- `logicalDiskAddPartition` only rewrites the `partitions` list of the
target logical disk; every identity-bearing field is untouched. -/
theorem ldAddPart_ld_fields (st : St) (l p x : Nat) :
    ((logicalDiskAddPartition st l p).ld x).deviceId = (st.ld x).deviceId
    ∧ ((logicalDiskAddPartition st l p).ld x).name = (st.ld x).name := by
  unfold logicalDiskAddPartition
  rw [setLd_ld_cases]
  split
  case isTrue h => rw [← h.1]; exact ⟨rfl, rfl⟩
  case isFalse h => exact ⟨rfl, rfl⟩

theorem ldAddPart_part (st : St) (l p x : Nat) :
    (logicalDiskAddPartition st l p).part x = st.part x := rfl

theorem ldAddPart_disk (st : St) (l p x : Nat) :
    (logicalDiskAddPartition st l p).disk x = st.disk x := rfl

theorem ldAddPart_parts (st : St) (l p : Nat) :
    (logicalDiskAddPartition st l p).parts = st.parts := rfl

theorem ldAddPart_disks (st : St) (l p : Nat) :
    (logicalDiskAddPartition st l p).disks = st.disks := rfl

theorem ldAddPart_sys (st : St) (l p : Nat) :
    (logicalDiskAddPartition st l p).sysParts = st.sysParts
    ∧ (logicalDiskAddPartition st l p).sysLds = st.sysLds
    ∧ (logicalDiskAddPartition st l p).sysDisks = st.sysDisks := ⟨rfl, rfl, rfl⟩

theorem ldAddPart_lds_length (st : St) (l p : Nat) :
    (logicalDiskAddPartition st l p).lds.length = st.lds.length := by
  unfold logicalDiskAddPartition
  exact setLd_lds_length _ _ _

theorem ldAddPart_ld_self (st : St) (l p : Nat) (h : l < st.lds.length) :
    ((logicalDiskAddPartition st l p).ld l).partitions = (st.ld l).partitions ++ [p] := by
  unfold logicalDiskAddPartition
  rw [setLd_ld_self _ _ _ h]

theorem ldAddPart_ld_ne (st : St) (l p x : Nat) (h : l ≠ x) :
    (logicalDiskAddPartition st l p).ld x = st.ld x := by
  unfold logicalDiskAddPartition
  exact setLd_ld_ne _ _ _ _ h

/-- `partitionAddLogicalDisk` only rewrites the `logicalDisks` list of the
target partition; every identity-bearing field is untouched. -/
theorem partAddLd_part_fields (st : St) (p l x : Nat) :
    ((partitionAddLogicalDisk st p l).part x).deviceId = (st.part x).deviceId
    ∧ ((partitionAddLogicalDisk st p l).part x).path = (st.part x).path
    ∧ ((partitionAddLogicalDisk st p l).part x).isdummy = (st.part x).isdummy
    ∧ ((partitionAddLogicalDisk st p l).part x).disk = (st.part x).disk := by
  unfold partitionAddLogicalDisk
  split
  · exact ⟨rfl, rfl, rfl, rfl⟩
  · rw [setPart_part_cases]
    split
    case isTrue h => rw [← h.1]; exact ⟨rfl, rfl, rfl, rfl⟩
    case isFalse h => exact ⟨rfl, rfl, rfl, rfl⟩

theorem partAddLd_ld (st : St) (p l x : Nat) :
    (partitionAddLogicalDisk st p l).ld x = st.ld x := by
  unfold partitionAddLogicalDisk
  split
  · rfl
  · exact setPart_ld _ _ _ _

theorem partAddLd_disk (st : St) (p l x : Nat) :
    (partitionAddLogicalDisk st p l).disk x = st.disk x := by
  unfold partitionAddLogicalDisk
  split
  · rfl
  · exact setPart_disk _ _ _ _

theorem partAddLd_lds (st : St) (p l : Nat) :
    (partitionAddLogicalDisk st p l).lds = st.lds := by
  unfold partitionAddLogicalDisk
  split <;> rfl

theorem partAddLd_disks (st : St) (p l : Nat) :
    (partitionAddLogicalDisk st p l).disks = st.disks := by
  unfold partitionAddLogicalDisk
  split <;> rfl

theorem partAddLd_sys (st : St) (p l : Nat) :
    (partitionAddLogicalDisk st p l).sysParts = st.sysParts
    ∧ (partitionAddLogicalDisk st p l).sysLds = st.sysLds
    ∧ (partitionAddLogicalDisk st p l).sysDisks = st.sysDisks := by
  unfold partitionAddLogicalDisk
  split <;> exact ⟨rfl, rfl, rfl⟩

theorem partAddLd_parts_length (st : St) (p l : Nat) :
    (partitionAddLogicalDisk st p l).parts.length = st.parts.length := by
  unfold partitionAddLogicalDisk
  split
  · rfl
  · exact setPart_parts_length _ _ _

theorem partAddLd_part_ne (st : St) (p l x : Nat) (h : p ≠ x) :
    (partitionAddLogicalDisk st p l).part x = st.part x := by
  unfold partitionAddLogicalDisk
  split
  · rfl
  · exact setPart_part_ne _ _ _ _ h

theorem diskAddPart_part (st : St) (d p x : Nat) :
    (diskAddPartition st d p).part x = st.part x := rfl

theorem diskAddPart_ld (st : St) (d p x : Nat) :
    (diskAddPartition st d p).ld x = st.ld x := rfl

theorem diskAddPart_parts (st : St) (d p : Nat) :
    (diskAddPartition st d p).parts = st.parts := rfl

theorem diskAddPart_lds (st : St) (d p : Nat) :
    (diskAddPartition st d p).lds = st.lds := rfl

theorem diskAddPart_sys (st : St) (d p : Nat) :
    (diskAddPartition st d p).sysParts = st.sysParts
    ∧ (diskAddPartition st d p).sysLds = st.sysLds
    ∧ (diskAddPartition st d p).sysDisks = st.sysDisks := ⟨rfl, rfl, rfl⟩

theorem diskAddPart_disks_length (st : St) (d p : Nat) :
    (diskAddPartition st d p).disks.length = st.disks.length := by
  unfold diskAddPartition
  exact setDisk_disks_length _ _ _

/-! ## Graph well-formedness

The builders maintain: the `System` flat lists register exactly the allocated
objects in allocation order; every stored edge reference is in range; the
registered logical disks carry pairwise distinct `Device I.D.`s and their
`Name` always equals their `Device I.D.`; and the two edge directions agree.
-/

/-- Every partition-to-logical-disk edge reference is in range. -/
def ldRefsValid (st : St) : Prop :=
  ∀ p, p < st.parts.length → ∀ l ∈ (st.part p).logicalDisks, l < st.lds.length

/-- Every logical-disk-to-partition edge reference is in range. -/
def partRefsValid (st : St) : Prop :=
  ∀ l, l < st.lds.length → ∀ p ∈ (st.ld l).partitions, p < st.parts.length

/-- Stored logical disks have pairwise distinct `Device I.D.`s. -/
def ldIdsInjective (st : St) : Prop :=
  ∀ l1 l2, l1 < st.lds.length → l2 < st.lds.length →
    (st.ld l1).deviceId = (st.ld l2).deviceId → l1 = l2

/-- Stored logical disks have `Name = Device I.D.` (true of both
`LinuxLogicalDisk`, where both are the mount target, and
`WindowsLogicalDisk`, where `name = device_id`). -/
def ldNamesAreIds (st : St) : Prop :=
  ∀ l, l < st.lds.length → (st.ld l).name = (st.ld l).deviceId

/-- The two edge directions agree: `L ∈ P.get_logical_disks()` exactly when
`P ∈ L.get_partitions()`. -/
def edgesMatch (st : St) : Prop :=
  ∀ p l, p < st.parts.length → l < st.lds.length →
    (l ∈ (st.part p).logicalDisks ↔ p ∈ (st.ld l).partitions)

/-- The builder invariant. -/
structure GraphWF (st : St) : Prop where
  sysParts_eq : st.sysParts = List.range st.parts.length
  sysLds_eq : st.sysLds = List.range st.lds.length
  sysDisks_eq : st.sysDisks = List.range st.disks.length
  ldRefs : ldRefsValid st
  partRefs : partRefsValid st
  ldInj : ldIdsInjective st
  ldNames : ldNamesAreIds st
  edges : edgesMatch st

theorem graphWF_empty : GraphWF ⟨[], [], [], [], [], []⟩ := by
  refine ⟨rfl, rfl, rfl, ?_, ?_, ?_, ?_, ?_⟩ <;>
    intro a ha <;> simp [St.part, St.ld] at ha ⊢

theorem graphWF_diskAddPartition (st : St) (d p : Nat) (h : GraphWF st) :
    GraphWF (diskAddPartition st d p) := by
  refine ⟨h.sysParts_eq, h.sysLds_eq, ?_, h.ldRefs, h.partRefs, h.ldInj, h.ldNames, h.edges⟩
  show st.sysDisks = List.range (diskAddPartition st d p).disks.length
  rw [diskAddPart_disks_length]
  exact h.sysDisks_eq

theorem graphWF_addLinuxDisk (st : St) (bd : BlockDev) (h : GraphWF st) :
    GraphWF (addLinuxDisk st bd) := by
  refine ⟨h.sysParts_eq, h.sysLds_eq, ?_, h.ldRefs, h.partRefs, h.ldInj, h.ldNames, h.edges⟩
  simp only [addLinuxDisk, List.length_append, List.length_singleton]
  rw [h.sysDisks_eq]
  simpa using (List.range_succ st.disks.length).symm

/-- Membership characterization of the deduplication test in
`Partition.add_logical_disk`: under the invariant, an attached logical disk
with the same `Device I.D.` as `l` is `l` itself.  Stated for any state `stA`
that reads the same partition edge list and the same logical disk
`Device I.D.`s as the well-formed state `st`. -/
theorem partAddLd_cond_iff (stA st : St) (p l : Nat) (h : GraphWF st)
    (hp : p < st.parts.length) (hl : l < st.lds.length)
    (hparts : (stA.part p).logicalDisks = (st.part p).logicalDisks)
    (hids : ∀ x, (stA.ld x).deviceId = (st.ld x).deviceId) :
    ((stA.part p).logicalDisks.any
        (fun l2 => (stA.ld l2).deviceId == (stA.ld l).deviceId)) = true
      ↔ l ∈ (st.part p).logicalDisks := by
  rw [hparts]
  constructor
  · intro hc
    obtain ⟨l2, hmem, heq⟩ := List.any_eq_true.mp hc
    rw [hids l2, hids l] at heq
    have hl2 : l2 < st.lds.length := h.ldRefs p hp l2 hmem
    have : l2 = l := h.ldInj l2 l hl2 hl (by simpa using heq)
    rwa [this] at hmem
  · intro hm
    exact List.any_eq_true.mpr ⟨l, hm, by simp⟩

/-- Effect of `Partition.add_logical_disk` on the target partition's edge
list, as a membership statement. -/
theorem partAddLd_mem (stA st : St) (p l : Nat) (h : GraphWF st)
    (hp : p < st.parts.length) (hl : l < st.lds.length)
    (hparts : stA.part p = st.part p) (hlen : stA.parts.length = st.parts.length)
    (hids : ∀ x, (stA.ld x).deviceId = (st.ld x).deviceId) (m : Nat) :
    (m ∈ ((partitionAddLogicalDisk stA p l).part p).logicalDisks
      ↔ m ∈ (st.part p).logicalDisks ∨ m = l) := by
  unfold partitionAddLogicalDisk
  split
  case isTrue hc =>
    have hmem := (partAddLd_cond_iff stA st p l h hp hl (by rw [hparts]) hids).mp hc
    rw [hparts]
    constructor
    · exact fun hm => Or.inl hm
    · rintro (hm | rfl)
      · exact hm
      · exact hmem
  case isFalse hc =>
    rw [setPart_part_self _ _ _ (by rw [hlen]; exact hp), hparts]
    simp [List.mem_append]

/-- The wiring pair as performed by the Linux builder
(linux_system.py:148-149): `Partition.add_logical_disk` then
`LogicalDisk.add_partition` preserves the invariant. -/
theorem graphWF_wireLinux (st : St) (p l : Nat) (h : GraphWF st)
    (hp : p < st.parts.length) (hl : l < st.lds.length) :
    GraphWF (logicalDiskAddPartition (partitionAddLogicalDisk st p l) l p) := by
  have h1parts : (partitionAddLogicalDisk st p l).parts.length = st.parts.length :=
    partAddLd_parts_length st p l
  have h1lds : (partitionAddLogicalDisk st p l).lds = st.lds := partAddLd_lds st p l
  have h1ld : ∀ x, (partitionAddLogicalDisk st p l).ld x = st.ld x :=
    fun x => partAddLd_ld st p l x
  have h2part : ∀ x,
      (logicalDiskAddPartition (partitionAddLogicalDisk st p l) l p).part x
        = (partitionAddLogicalDisk st p l).part x :=
    fun x => ldAddPart_part _ l p x
  have h2parts : (logicalDiskAddPartition (partitionAddLogicalDisk st p l) l p).parts
      = (partitionAddLogicalDisk st p l).parts := ldAddPart_parts _ l p
  have h2ldslen :
      (logicalDiskAddPartition (partitionAddLogicalDisk st p l) l p).lds.length
        = st.lds.length := by
    rw [ldAddPart_lds_length, h1lds]
  have h2partslen :
      (logicalDiskAddPartition (partitionAddLogicalDisk st p l) l p).parts.length
        = st.parts.length := by
    rw [h2parts]; exact h1parts
  have hl1 : l < (partitionAddLogicalDisk st p l).lds.length := by rw [h1lds]; exact hl
  have h2ldl :
      ((logicalDiskAddPartition (partitionAddLogicalDisk st p l) l p).ld l).partitions
        = (st.ld l).partitions ++ [p] := by
    rw [ldAddPart_ld_self _ l p hl1, h1ld]
  have h2ldne : ∀ x, l ≠ x →
      (logicalDiskAddPartition (partitionAddLogicalDisk st p l) l p).ld x = st.ld x := by
    intro x hx
    rw [ldAddPart_ld_ne _ l p x hx, h1ld]
  have hmemP : ∀ m,
      (m ∈ ((logicalDiskAddPartition (partitionAddLogicalDisk st p l) l p).part p).logicalDisks
        ↔ m ∈ (st.part p).logicalDisks ∨ m = l) := by
    intro m
    rw [h2part]
    exact partAddLd_mem st st p l h hp hl rfl rfl (fun _ => rfl) m
  have hpartne : ∀ q, q ≠ p →
      (logicalDiskAddPartition (partitionAddLogicalDisk st p l) l p).part q = st.part q := by
    intro q hq
    rw [h2part, partAddLd_part_ne st p l q (fun e => hq e.symm)]
  have hidfix : ∀ x,
      ((logicalDiskAddPartition (partitionAddLogicalDisk st p l) l p).ld x).deviceId
        = (st.ld x).deviceId ∧
      ((logicalDiskAddPartition (partitionAddLogicalDisk st p l) l p).ld x).name
        = (st.ld x).name := by
    intro x
    have := ldAddPart_ld_fields (partitionAddLogicalDisk st p l) l p x
    rw [h1ld] at this
    exact this
  refine ⟨?_, ?_, ?_, ?_, ?_, ?_, ?_, ?_⟩
  · rw [(ldAddPart_sys _ l p).1, (partAddLd_sys st p l).1, h2partslen]
    exact h.sysParts_eq
  · rw [(ldAddPart_sys _ l p).2.1, (partAddLd_sys st p l).2.1, h2ldslen]
    exact h.sysLds_eq
  · rw [(ldAddPart_sys _ l p).2.2, (partAddLd_sys st p l).2.2,
      ldAddPart_disks, partAddLd_disks]
    exact h.sysDisks_eq
  · intro q hq m hm
    rw [h2partslen] at hq
    rw [h2ldslen]
    by_cases hqp : q = p
    · subst hqp
      rcases (hmemP m).mp hm with hold | rfl
      · exact h.ldRefs q hq m hold
      · exact hl
    · rw [hpartne q hqp] at hm
      exact h.ldRefs q hq m hm
  · intro m hm q hq
    rw [h2ldslen] at hm
    rw [h2partslen]
    by_cases hml : m = l
    · subst hml
      rw [h2ldl] at hq
      rcases List.mem_append.mp hq with hold | hnew
      · exact h.partRefs m hm q hold
      · rw [List.mem_singleton.mp hnew]
        exact hp
    · rw [h2ldne m (fun e => hml e.symm)] at hq
      exact h.partRefs m hm q hq
  · intro l1 l2 h1 h2 heq
    rw [h2ldslen] at h1 h2
    rw [(hidfix l1).1, (hidfix l2).1] at heq
    exact h.ldInj l1 l2 h1 h2 heq
  · intro x hx
    rw [h2ldslen] at hx
    rw [(hidfix x).1, (hidfix x).2]
    exact h.ldNames x hx
  · intro q m hq hm
    rw [h2partslen] at hq
    rw [h2ldslen] at hm
    by_cases hqp : q = p
    · subst hqp
      by_cases hml : m = l
      · subst hml
        constructor
        · intro _
          rw [h2ldl]
          exact List.mem_append.mpr (Or.inr (List.mem_singleton.mpr rfl))
        · intro _
          exact (hmemP m).mpr (Or.inr rfl)
      · rw [h2ldne m (fun e => hml e.symm), hmemP m]
        constructor
        · rintro (hold | rfl)
          · exact (h.edges q m hq hm).mp hold
          · exact absurd rfl hml
        · intro hq2
          exact Or.inl ((h.edges q m hq hm).mpr hq2)
    · rw [hpartne q hqp]
      by_cases hml : m = l
      · subst hml
        rw [h2ldl]
        constructor
        · intro hold
          exact List.mem_append.mpr (Or.inl ((h.edges q m hq hm).mp hold))
        · intro hq2
          rcases List.mem_append.mp hq2 with hold | hnew
          · exact (h.edges q m hq hm).mpr hold
          · exact absurd (List.mem_singleton.mp hnew) hqp
      · rw [h2ldne m (fun e => hml e.symm)]
        exact h.edges q m hq hm

/-- The wiring pair as performed by the Windows builder (system.py:305-306):
`LogicalDisk.add_partition` then `Partition.add_logical_disk` preserves the
invariant. -/
theorem graphWF_wireWindows (st : St) (p l : Nat) (h : GraphWF st)
    (hp : p < st.parts.length) (hl : l < st.lds.length) :
    GraphWF (partitionAddLogicalDisk (logicalDiskAddPartition st l p) p l) := by
  have h1ldslen : (logicalDiskAddPartition st l p).lds.length = st.lds.length :=
    ldAddPart_lds_length st l p
  have h1parts : (logicalDiskAddPartition st l p).parts = st.parts :=
    ldAddPart_parts st l p
  have h1part : ∀ x, (logicalDiskAddPartition st l p).part x = st.part x :=
    fun x => ldAddPart_part st l p x
  have h1ldl : ((logicalDiskAddPartition st l p).ld l).partitions
      = (st.ld l).partitions ++ [p] := ldAddPart_ld_self st l p hl
  have h1ldne : ∀ x, l ≠ x → (logicalDiskAddPartition st l p).ld x = st.ld x :=
    fun x hx => ldAddPart_ld_ne st l p x hx
  have h1id : ∀ x, ((logicalDiskAddPartition st l p).ld x).deviceId = (st.ld x).deviceId :=
    fun x => (ldAddPart_ld_fields st l p x).1
  have h1name : ∀ x, ((logicalDiskAddPartition st l p).ld x).name = (st.ld x).name :=
    fun x => (ldAddPart_ld_fields st l p x).2
  have h2lds : (partitionAddLogicalDisk (logicalDiskAddPartition st l p) p l).lds
      = (logicalDiskAddPartition st l p).lds := partAddLd_lds _ p l
  have h2partslen :
      (partitionAddLogicalDisk (logicalDiskAddPartition st l p) p l).parts.length
        = st.parts.length := by
    rw [partAddLd_parts_length, h1parts]
  have h2ldslen :
      (partitionAddLogicalDisk (logicalDiskAddPartition st l p) p l).lds.length
        = st.lds.length := by
    rw [h2lds]; exact h1ldslen
  have h2ld : ∀ x, (partitionAddLogicalDisk (logicalDiskAddPartition st l p) p l).ld x
      = (logicalDiskAddPartition st l p).ld x :=
    fun x => partAddLd_ld _ p l x
  have hmemP : ∀ m,
      (m ∈ ((partitionAddLogicalDisk (logicalDiskAddPartition st l p) p l).part p).logicalDisks
        ↔ m ∈ (st.part p).logicalDisks ∨ m = l) := by
    intro m
    exact partAddLd_mem (logicalDiskAddPartition st l p) st p l h hp hl (h1part p)
      (by rw [h1parts]) h1id m
  have hpartne : ∀ q, q ≠ p →
      (partitionAddLogicalDisk (logicalDiskAddPartition st l p) p l).part q = st.part q := by
    intro q hq
    rw [partAddLd_part_ne _ p l q (fun e => hq e.symm), h1part]
  refine ⟨?_, ?_, ?_, ?_, ?_, ?_, ?_, ?_⟩
  · rw [(partAddLd_sys _ p l).1, (ldAddPart_sys st l p).1, h2partslen]
    exact h.sysParts_eq
  · rw [(partAddLd_sys _ p l).2.1, (ldAddPart_sys st l p).2.1, h2ldslen]
    exact h.sysLds_eq
  · rw [(partAddLd_sys _ p l).2.2, (ldAddPart_sys st l p).2.2,
      partAddLd_disks, ldAddPart_disks]
    exact h.sysDisks_eq
  · intro q hq m hm
    rw [h2partslen] at hq
    rw [h2ldslen]
    by_cases hqp : q = p
    · subst hqp
      rcases (hmemP m).mp hm with hold | rfl
      · exact h.ldRefs q hq m hold
      · exact hl
    · rw [hpartne q hqp] at hm
      exact h.ldRefs q hq m hm
  · intro m hm q hq
    rw [h2ldslen] at hm
    rw [h2partslen]
    rw [h2ld] at hq
    by_cases hml : m = l
    · subst hml
      rw [h1ldl] at hq
      rcases List.mem_append.mp hq with hold | hnew
      · exact h.partRefs m hm q hold
      · rw [List.mem_singleton.mp hnew]
        exact hp
    · rw [h1ldne m (fun e => hml e.symm)] at hq
      exact h.partRefs m hm q hq
  · intro l1 l2 hb1 hb2 heq
    rw [h2ldslen] at hb1 hb2
    rw [h2ld, h2ld, h1id, h1id] at heq
    exact h.ldInj l1 l2 hb1 hb2 heq
  · intro x hx
    rw [h2ldslen] at hx
    rw [h2ld, h1id, h1name]
    exact h.ldNames x hx
  · intro q m hq hm
    rw [h2partslen] at hq
    rw [h2ldslen] at hm
    rw [h2ld]
    by_cases hqp : q = p
    · subst hqp
      by_cases hml : m = l
      · subst hml
        constructor
        · intro _
          rw [h1ldl]
          exact List.mem_append.mpr (Or.inr (List.mem_singleton.mpr rfl))
        · intro _
          exact (hmemP m).mpr (Or.inr rfl)
      · rw [h1ldne m (fun e => hml e.symm), hmemP m]
        constructor
        · rintro (hold | rfl)
          · exact (h.edges q m hq hm).mp hold
          · exact absurd rfl hml
        · intro hq2
          exact Or.inl ((h.edges q m hq hm).mpr hq2)
    · rw [hpartne q hqp]
      by_cases hml : m = l
      · subst hml
        rw [h1ldl]
        constructor
        · intro hold
          exact List.mem_append.mpr (Or.inl ((h.edges q m hq hm).mp hold))
        · intro hq2
          rcases List.mem_append.mp hq2 with hold | hnew
          · exact (h.edges q m hq hm).mpr hold
          · exact absurd (List.mem_singleton.mp hnew) hqp
      · rw [h1ldne m (fun e => hml e.symm)]
        exact h.edges q m hq hm

theorem wireLinux_parts_length (st : St) (p l : Nat) :
    (logicalDiskAddPartition (partitionAddLogicalDisk st p l) l p).parts.length
      = st.parts.length := by
  rw [ldAddPart_parts, partAddLd_parts_length]

theorem wireWindows_parts_length (st : St) (p l : Nat) :
    (partitionAddLogicalDisk (logicalDiskAddPartition st l p) p l).parts.length
      = st.parts.length := by
  rw [partAddLd_parts_length, ldAddPart_parts]

/-- Appending a fresh disk object and registering it preserves the
invariant. -/
theorem graphWF_appendDisk (st : St) (dObj : DiskObj) (h : GraphWF st) :
    GraphWF { st with
                disks := st.disks ++ [dObj]
                sysDisks := st.sysDisks ++ [st.disks.length] } := by
  refine ⟨h.sysParts_eq, h.sysLds_eq, ?_, h.ldRefs, h.partRefs, h.ldInj, h.ldNames, h.edges⟩
  show st.sysDisks ++ [st.disks.length] = List.range (st.disks ++ [dObj]).length
  rw [h.sysDisks_eq, List.length_append, List.length_singleton]
  simpa using (List.range_succ st.disks.length).symm

/-- Appending a fresh partition object with no attached logical disks and
registering it preserves the invariant. -/
theorem graphWF_appendPart (st : St) (pObj : PartObj)
    (hlds : pObj.logicalDisks = []) (h : GraphWF st) :
    GraphWF { st with
                parts := st.parts ++ [pObj]
                sysParts := st.sysParts ++ [st.parts.length] } := by
  have hpart : ∀ q, q < st.parts.length →
      ({ st with
          parts := st.parts ++ [pObj]
          sysParts := st.sysParts ++ [st.parts.length] } : St).part q = st.part q := by
    intro q hq
    show (st.parts ++ [pObj]).getD q default = st.parts.getD q default
    exact getD_append_left st.parts pObj default q hq
  have hnew : ({ st with
          parts := st.parts ++ [pObj]
          sysParts := st.sysParts ++ [st.parts.length] } : St).part st.parts.length
      = pObj := getD_append_self st.parts pObj default
  have hlen : ({ st with
          parts := st.parts ++ [pObj]
          sysParts := st.sysParts ++ [st.parts.length] } : St).parts.length
      = st.parts.length + 1 := by
    simp
  refine ⟨?_, h.sysLds_eq, h.sysDisks_eq, ?_, ?_, h.ldInj, h.ldNames, ?_⟩
  · show st.sysParts ++ [st.parts.length] = List.range (st.parts ++ [pObj]).length
    rw [h.sysParts_eq, List.length_append, List.length_singleton]
    simpa using (List.range_succ st.parts.length).symm
  · intro q hq m hm
    rw [hlen] at hq
    rcases Nat.lt_succ_iff_lt_or_eq.mp hq with hq2 | rfl
    · rw [hpart q hq2] at hm
      exact h.ldRefs q hq2 m hm
    · rw [hnew, hlds] at hm
      exact absurd hm (List.not_mem_nil m)
  · intro m hm q hq
    rw [hlen]
    exact Nat.lt_succ_of_lt (h.partRefs m hm q hq)
  · intro q m hq hm
    rw [hlen] at hq
    rcases Nat.lt_succ_iff_lt_or_eq.mp hq with hq2 | rfl
    · rw [hpart q hq2]
      constructor
      · intro hmem
        exact (h.edges q m hq2 hm).mp hmem
      · intro hmem
        exact (h.edges q m hq2 hm).mpr hmem
    · rw [hnew, hlds]
      constructor
      · intro hmem
        exact absurd hmem (List.not_mem_nil m)
      · intro hmem
        exact absurd (h.partRefs m hm _ hmem) (Nat.lt_irrefl _)

/-- Appending a fresh logical disk object with no attached partitions and a
`Device I.D.` not yet stored preserves the invariant. -/
theorem graphWF_appendLd (st : St) (lObj : LDObj)
    (hobj : lObj.name = lObj.deviceId) (hparts : lObj.partitions = [])
    (hfresh : ∀ x, x < st.lds.length → (st.ld x).deviceId ≠ lObj.deviceId)
    (h : GraphWF st) :
    GraphWF { st with
                lds := st.lds ++ [lObj]
                sysLds := st.sysLds ++ [st.lds.length] } := by
  have hld : ∀ m, m < st.lds.length →
      ({ st with
          lds := st.lds ++ [lObj]
          sysLds := st.sysLds ++ [st.lds.length] } : St).ld m = st.ld m := by
    intro m hm
    show (st.lds ++ [lObj]).getD m default = st.lds.getD m default
    exact getD_append_left st.lds lObj default m hm
  have hnew : ({ st with
          lds := st.lds ++ [lObj]
          sysLds := st.sysLds ++ [st.lds.length] } : St).ld st.lds.length
      = lObj := getD_append_self st.lds lObj default
  have hlen : ({ st with
          lds := st.lds ++ [lObj]
          sysLds := st.sysLds ++ [st.lds.length] } : St).lds.length
      = st.lds.length + 1 := by
    simp
  refine ⟨h.sysParts_eq, ?_, h.sysDisks_eq, ?_, ?_, ?_, ?_, ?_⟩
  · show st.sysLds ++ [st.lds.length] = List.range (st.lds ++ [lObj]).length
    rw [h.sysLds_eq, List.length_append, List.length_singleton]
    simpa using (List.range_succ st.lds.length).symm
  · intro q hq m hm
    rw [hlen]
    exact Nat.lt_succ_of_lt (h.ldRefs q hq m hm)
  · intro m hm q hq
    rw [hlen] at hm
    rcases Nat.lt_succ_iff_lt_or_eq.mp hm with hm2 | rfl
    · rw [hld m hm2] at hq
      exact h.partRefs m hm2 q hq
    · rw [hnew, hparts] at hq
      exact absurd hq (List.not_mem_nil q)
  · intro l1 l2 h1 h2 heq
    rw [hlen] at h1 h2
    rcases Nat.lt_succ_iff_lt_or_eq.mp h1 with h1b | rfl <;>
      rcases Nat.lt_succ_iff_lt_or_eq.mp h2 with h2b | rfl
    · rw [hld l1 h1b, hld l2 h2b] at heq
      exact h.ldInj l1 l2 h1b h2b heq
    · rw [hld l1 h1b, hnew] at heq
      exact absurd heq (hfresh l1 h1b)
    · rw [hnew, hld l2 h2b] at heq
      exact absurd heq.symm (hfresh l2 h2b)
    · rfl
  · intro m hm
    rw [hlen] at hm
    rcases Nat.lt_succ_iff_lt_or_eq.mp hm with hm2 | rfl
    · rw [hld m hm2]
      exact h.ldNames m hm2
    · rw [hnew]
      exact hobj
  · intro q m hq hm
    rw [hlen] at hm
    rcases Nat.lt_succ_iff_lt_or_eq.mp hm with hm2 | rfl
    · rw [hld m hm2]
      exact h.edges q m hq hm2
    · rw [hnew, hparts]
      constructor
      · intro hmem
        exact absurd (h.ldRefs q hq _ hmem) (Nat.lt_irrefl _)
      · intro hmem
        exact absurd hmem (List.not_mem_nil q)

/-- Full behaviour of `LinuxSystem._add_logical_disk` on a well-formed state:
the result is well formed, the returned reference is valid, names it after
the requested logical disk, and everything except the logical disk store is
untouched. -/
theorem linuxAddLd_spec (st : St) (lObj : LDObj)
    (hobj : lObj.name = lObj.deviceId) (hparts : lObj.partitions = [])
    (h : GraphWF st) :
    GraphWF (linuxAddLogicalDisk st lObj).1
    ∧ (linuxAddLogicalDisk st lObj).2 < (linuxAddLogicalDisk st lObj).1.lds.length
    ∧ ((linuxAddLogicalDisk st lObj).1.ld (linuxAddLogicalDisk st lObj).2).name = lObj.name
    ∧ (linuxAddLogicalDisk st lObj).1.parts = st.parts
    ∧ (linuxAddLogicalDisk st lObj).1.disks = st.disks
    ∧ (linuxAddLogicalDisk st lObj).1.sysParts = st.sysParts
    ∧ (linuxAddLogicalDisk st lObj).1.sysDisks = st.sysDisks
    ∧ st.lds.length ≤ (linuxAddLogicalDisk st lObj).1.lds.length
    ∧ (∀ x, x < st.lds.length → (linuxAddLogicalDisk st lObj).1.ld x = st.ld x) := by
  unfold linuxAddLogicalDisk
  cases hfind : st.sysLds.find? (fun r => (st.ld r).name == lObj.name) with
  | some r =>
    have hrmem : r ∈ st.sysLds := List.mem_of_find?_eq_some hfind
    have hrlt : r < st.lds.length := by
      rw [h.sysLds_eq] at hrmem
      simpa using hrmem
    have hrname : (st.ld r).name = lObj.name := by
      have := List.find?_some hfind
      simpa using this
    exact ⟨h, hrlt, hrname, rfl, rfl, rfl, rfl, Nat.le_refl _, fun x _ => rfl⟩
  | none =>
    have hnone : ∀ x, x < st.lds.length → (st.ld x).name ≠ lObj.name := by
      intro x hx
      have hxmem : x ∈ st.sysLds := by
        rw [h.sysLds_eq]
        simpa using hx
      have := List.find?_eq_none.mp hfind x hxmem
      simpa using this
    have hfresh : ∀ x, x < st.lds.length → (st.ld x).deviceId ≠ lObj.deviceId := by
      intro x hx heq
      exact hnone x hx (by rw [h.ldNames x hx, heq, ← hobj])
    have hwf := graphWF_appendLd st lObj hobj hparts hfresh h
    have hlen : (st.lds ++ [lObj]).length = st.lds.length + 1 := by simp
    refine ⟨hwf, ?_, ?_, rfl, rfl, rfl, rfl, ?_, ?_⟩
    · show st.lds.length < (st.lds ++ [lObj]).length
      rw [hlen]
      exact Nat.lt_succ_self _
    · show ((st.lds ++ [lObj]).getD st.lds.length default).name = lObj.name
      rw [getD_append_self]
    · show st.lds.length ≤ (st.lds ++ [lObj]).length
      rw [hlen]
      exact Nat.le_succ _
    · intro x hx
      show (st.lds ++ [lObj]).getD x default = st.lds.getD x default
      exact getD_append_left st.lds lObj default x hx

/-- Full behaviour of `System._add_logical_disk` (the Windows find-or-create,
keyed by `Device I.D.`) on a well-formed state. -/
theorem systemAddLd_spec (st : St) (lObj : LDObj)
    (hobj : lObj.name = lObj.deviceId) (hparts : lObj.partitions = [])
    (h : GraphWF st) :
    GraphWF (systemAddLogicalDisk st lObj).1
    ∧ (systemAddLogicalDisk st lObj).2 < (systemAddLogicalDisk st lObj).1.lds.length
    ∧ (systemAddLogicalDisk st lObj).1.parts = st.parts
    ∧ (systemAddLogicalDisk st lObj).1.disks = st.disks
    ∧ (systemAddLogicalDisk st lObj).1.sysParts = st.sysParts
    ∧ (systemAddLogicalDisk st lObj).1.sysDisks = st.sysDisks
    ∧ st.lds.length ≤ (systemAddLogicalDisk st lObj).1.lds.length := by
  unfold systemAddLogicalDisk
  cases hfind : st.sysLds.find? (fun r => (st.ld r).deviceId == lObj.deviceId) with
  | some r =>
    have hrmem : r ∈ st.sysLds := List.mem_of_find?_eq_some hfind
    have hrlt : r < st.lds.length := by
      rw [h.sysLds_eq] at hrmem
      simpa using hrmem
    exact ⟨h, hrlt, rfl, rfl, rfl, rfl, Nat.le_refl _⟩
  | none =>
    have hfresh : ∀ x, x < st.lds.length → (st.ld x).deviceId ≠ lObj.deviceId := by
      intro x hx
      have hxmem : x ∈ st.sysLds := by
        rw [h.sysLds_eq]
        simpa using hx
      have := List.find?_eq_none.mp hfind x hxmem
      simpa using this
    have hwf := graphWF_appendLd st lObj hobj hparts hfresh h
    have hlen : (st.lds ++ [lObj]).length = st.lds.length + 1 := by simp
    refine ⟨hwf, ?_, rfl, rfl, rfl, rfl, ?_⟩
    · show st.lds.length < (st.lds ++ [lObj]).length
      rw [hlen]
      exact Nat.lt_succ_self _
    · show st.lds.length ≤ (st.lds ++ [lObj]).length
      rw [hlen]
      exact Nat.le_succ _

/-- Full behaviour of `System._add_partition` on a well-formed state. -/
theorem systemAddPart_spec (st : St) (pObj : PartObj)
    (hlds : pObj.logicalDisks = []) (h : GraphWF st) :
    GraphWF (systemAddPartition st pObj).1
    ∧ (systemAddPartition st pObj).2 < (systemAddPartition st pObj).1.parts.length
    ∧ (systemAddPartition st pObj).1.lds = st.lds
    ∧ (systemAddPartition st pObj).1.disks = st.disks
    ∧ (systemAddPartition st pObj).1.sysLds = st.sysLds
    ∧ (systemAddPartition st pObj).1.sysDisks = st.sysDisks
    ∧ st.parts.length ≤ (systemAddPartition st pObj).1.parts.length := by
  unfold systemAddPartition
  cases hfind : st.sysParts.find? (fun r => (st.part r).deviceId == pObj.deviceId) with
  | some r =>
    have hrmem : r ∈ st.sysParts := List.mem_of_find?_eq_some hfind
    have hrlt : r < st.parts.length := by
      rw [h.sysParts_eq] at hrmem
      simpa using hrmem
    exact ⟨h, hrlt, rfl, rfl, rfl, rfl, Nat.le_refl _⟩
  | none =>
    have hwf := graphWF_appendPart st pObj hlds h
    have hlen : (st.parts ++ [pObj]).length = st.parts.length + 1 := by simp
    refine ⟨hwf, ?_, rfl, rfl, rfl, rfl, ?_⟩
    · show st.parts.length < (st.parts ++ [pObj]).length
      rw [hlen]
      exact Nat.lt_succ_self _
    · show st.parts.length ≤ (st.parts ++ [pObj]).length
      rw [hlen]
      exact Nat.le_succ _

/-- The dummy partition synthesis of one disk match
(linux_system.py:153-159): register the dummy, append it to the disk, then
`checked_logical_disk.add_partition(dummy_partition)`.  Preserves the
invariant. -/
theorem graphWF_dummyWire (st : St) (d l : Nat) (hl : l < st.lds.length)
    (h : GraphWF st) :
    GraphWF (logicalDiskAddPartition (linuxDummyRegister st d l) l st.parts.length) := by
  have hRparts : (linuxDummyRegister st d l).parts = st.parts ++ [mkDummyPart d l] := rfl
  have hRlds : (linuxDummyRegister st d l).lds = st.lds := rfl
  have hRsysP : (linuxDummyRegister st d l).sysParts
      = st.sysParts ++ [st.parts.length] := rfl
  have hRsysL : (linuxDummyRegister st d l).sysLds = st.sysLds := rfl
  have hRsysD : (linuxDummyRegister st d l).sysDisks = st.sysDisks := rfl
  have hFparts : (logicalDiskAddPartition (linuxDummyRegister st d l) l st.parts.length).parts
      = st.parts ++ [mkDummyPart d l] := by
    rw [ldAddPart_parts, hRparts]
  have hFlen :
      (logicalDiskAddPartition (linuxDummyRegister st d l) l st.parts.length).parts.length
        = st.parts.length + 1 := by
    rw [hFparts]; simp
  have hFldslen :
      (logicalDiskAddPartition (linuxDummyRegister st d l) l st.parts.length).lds.length
        = st.lds.length := by
    rw [ldAddPart_lds_length]
    show (st.lds).length = st.lds.length
    rfl
  have hFpart : ∀ q, q < st.parts.length →
      (logicalDiskAddPartition (linuxDummyRegister st d l) l st.parts.length).part q
        = st.part q := by
    intro q hq
    show ((logicalDiskAddPartition (linuxDummyRegister st d l) l st.parts.length).parts).getD
        q default = st.parts.getD q default
    rw [hFparts]
    exact getD_append_left st.parts _ default q hq
  have hFnew :
      (logicalDiskAddPartition (linuxDummyRegister st d l) l st.parts.length).part
        st.parts.length = mkDummyPart d l := by
    show ((logicalDiskAddPartition (linuxDummyRegister st d l) l st.parts.length).parts).getD
        st.parts.length default = mkDummyPart d l
    rw [hFparts]
    exact getD_append_self st.parts _ default
  have hl2 : l < (linuxDummyRegister st d l).lds.length := hl
  have hFldl :
      ((logicalDiskAddPartition (linuxDummyRegister st d l) l st.parts.length).ld l).partitions
        = (st.ld l).partitions ++ [st.parts.length] :=
    ldAddPart_ld_self (linuxDummyRegister st d l) l st.parts.length hl2
  have hFldne : ∀ x, l ≠ x →
      (logicalDiskAddPartition (linuxDummyRegister st d l) l st.parts.length).ld x
        = st.ld x := by
    intro x hx
    rw [ldAddPart_ld_ne _ l _ x hx]
    rfl
  have hFid : ∀ x,
      ((logicalDiskAddPartition (linuxDummyRegister st d l) l st.parts.length).ld x).deviceId
        = (st.ld x).deviceId ∧
      ((logicalDiskAddPartition (linuxDummyRegister st d l) l st.parts.length).ld x).name
        = (st.ld x).name := by
    intro x
    exact ldAddPart_ld_fields (linuxDummyRegister st d l) l st.parts.length x
  refine ⟨?_, ?_, ?_, ?_, ?_, ?_, ?_, ?_⟩
  · rw [(ldAddPart_sys _ _ _).1, hRsysP, hFlen, h.sysParts_eq]
    simpa using (List.range_succ st.parts.length).symm
  · rw [(ldAddPart_sys _ _ _).2.1, hRsysL, hFldslen]
    exact h.sysLds_eq
  · rw [(ldAddPart_sys _ _ _).2.2, hRsysD, ldAddPart_disks]
    show st.sysDisks = List.range (diskAddPartition _ d st.parts.length).disks.length
    rw [diskAddPart_disks_length]
    exact h.sysDisks_eq
  · intro q hq m hm
    rw [hFlen] at hq
    rw [hFldslen]
    rcases Nat.lt_succ_iff_lt_or_eq.mp hq with hq2 | rfl
    · rw [hFpart q hq2] at hm
      exact h.ldRefs q hq2 m hm
    · rw [hFnew] at hm
      rw [List.mem_singleton.mp hm]
      exact hl
  · intro m hm q hq
    rw [hFldslen] at hm
    rw [hFlen]
    by_cases hml : m = l
    · subst hml
      rw [hFldl] at hq
      rcases List.mem_append.mp hq with hold | hnew2
      · exact Nat.lt_succ_of_lt (h.partRefs m hm q hold)
      · rw [List.mem_singleton.mp hnew2]
        exact Nat.lt_succ_self _
    · rw [hFldne m (fun e => hml e.symm)] at hq
      exact Nat.lt_succ_of_lt (h.partRefs m hm q hq)
  · intro l1 l2 h1 h2 heq
    rw [hFldslen] at h1 h2
    rw [(hFid l1).1, (hFid l2).1] at heq
    exact h.ldInj l1 l2 h1 h2 heq
  · intro x hx
    rw [hFldslen] at hx
    rw [(hFid x).1, (hFid x).2]
    exact h.ldNames x hx
  · intro q m hq hm
    rw [hFlen] at hq
    rw [hFldslen] at hm
    rcases Nat.lt_succ_iff_lt_or_eq.mp hq with hq2 | rfl
    · rw [hFpart q hq2]
      by_cases hml : m = l
      · subst hml
        rw [hFldl]
        constructor
        · intro hold
          exact List.mem_append.mpr (Or.inl ((h.edges q m hq2 hm).mp hold))
        · intro hq3
          rcases List.mem_append.mp hq3 with hold | hnew2
          · exact (h.edges q m hq2 hm).mpr hold
          · exact absurd (List.mem_singleton.mp hnew2) (Nat.ne_of_lt hq2)
      · rw [hFldne m (fun e => hml e.symm)]
        exact h.edges q m hq2 hm
    · rw [hFnew]
      by_cases hml : m = l
      · subst hml
        rw [hFldl]
        constructor
        · intro _
          exact List.mem_append.mpr (Or.inr (List.mem_singleton.mpr rfl))
        · intro _
          show m ∈ (mkDummyPart d m).logicalDisks
          simp [mkDummyPart]
      · rw [hFldne m (fun e => hml e.symm)]
        constructor
        · intro hmem
          have : m = l := by
            have := List.mem_singleton.mp hmem
            exact this
          exact absurd this hml
        · intro hmem
          exact absurd (h.partRefs m hm _ hmem) (Nat.lt_irrefl _)

/-- `linuxPartStep` preserves the invariant. -/
theorem graphWF_linuxPartStep (st : St) (bd : BlockDev) (h : GraphWF st) :
    GraphWF (linuxPartStep st bd) := by
  unfold linuxPartStep
  split
  case isFalse => exact h
  case isTrue =>
    cases hfind : st.sysDisks.find?
        (fun d => toString (st.disk d).majorNumber == bd.major) with
    | none => exact h
    | some d =>
      show GraphWF { diskAddPartition
        { st with parts := st.parts ++ [mkLinuxPart d bd] } d st.parts.length with
        sysParts := (diskAddPartition
          { st with parts := st.parts ++ [mkLinuxPart d bd] } d st.parts.length).sysParts
            ++ [st.parts.length] }
      have hstep : ({ diskAddPartition
          { st with parts := st.parts ++ [mkLinuxPart d bd] } d st.parts.length with
          sysParts := (diskAddPartition
            { st with parts := st.parts ++ [mkLinuxPart d bd] } d st.parts.length).sysParts
              ++ [st.parts.length] } : St)
          = diskAddPartition
            { st with
                parts := st.parts ++ [mkLinuxPart d bd]
                sysParts := st.sysParts ++ [st.parts.length] } d st.parts.length := rfl
      rw [hstep]
      exact graphWF_diskAddPartition _ d st.parts.length
        (graphWF_appendPart st (mkLinuxPart d bd) rfl h)

/-- The partition scan of one `df` line preserves the invariant and the
partition count. -/
theorem graphWF_dfPartScan (st2 : St) (p : Nat) (ldObj : LDObj) (source : String)
    (hobj : ldObj.name = ldObj.deviceId) (hparts : ldObj.partitions = [])
    (h : GraphWF st2) (hp : p < st2.parts.length) :
    GraphWF (linuxDfPartScan ldObj source st2 p)
    ∧ (linuxDfPartScan ldObj source st2 p).parts.length = st2.parts.length := by
  unfold linuxDfPartScan
  split
  case isFalse => exact ⟨h, rfl⟩
  case isTrue =>
    have spec := linuxAddLd_spec st2 ldObj hobj hparts h
    have hplt : p < (linuxAddLogicalDisk st2 ldObj).1.parts.length := by
      rw [spec.2.2.2.1]
      exact hp
    constructor
    · exact graphWF_wireLinux (linuxAddLogicalDisk st2 ldObj).1 p
        (linuxAddLogicalDisk st2 ldObj).2 spec.1 hplt spec.2.1
    · rw [wireLinux_parts_length, spec.2.2.2.1]

/-- The disk scan of one `df` line preserves the invariant; the partition
count can only grow (by the synthesized dummies). -/
theorem graphWF_dfDiskScan (st2 : St) (d : Nat) (ldObj : LDObj) (source : String)
    (hobj : ldObj.name = ldObj.deviceId) (hparts : ldObj.partitions = [])
    (h : GraphWF st2) :
    GraphWF (linuxDfDiskScan ldObj source st2 d)
    ∧ st2.parts.length ≤ (linuxDfDiskScan ldObj source st2 d).parts.length := by
  unfold linuxDfDiskScan
  split
  case isFalse => exact ⟨h, Nat.le_refl _⟩
  case isTrue =>
    have spec := linuxAddLd_spec st2 ldObj hobj hparts h
    constructor
    · exact graphWF_dummyWire (linuxAddLogicalDisk st2 ldObj).1 d
        (linuxAddLogicalDisk st2 ldObj).2 spec.2.1 spec.1
    · have hfin : (logicalDiskAddPartition
          (linuxDummyRegister (linuxAddLogicalDisk st2 ldObj).1 d
            (linuxAddLogicalDisk st2 ldObj).2)
          (linuxAddLogicalDisk st2 ldObj).2
          (linuxAddLogicalDisk st2 ldObj).1.parts.length).parts
          = (linuxAddLogicalDisk st2 ldObj).1.parts
            ++ [mkDummyPart d (linuxAddLogicalDisk st2 ldObj).2] := by
        rw [ldAddPart_parts]
        rfl
      rw [hfin, List.length_append, spec.2.2.2.1]
      exact Nat.le_add_right _ _

/-- One `df` mount line preserves the invariant and never removes
partitions. -/
theorem graphWF_linuxDfStep (st : St) (df : DfRec) (h : GraphWF st) :
    GraphWF (linuxDfStep st df)
    ∧ st.parts.length ≤ (linuxDfStep st df).parts.length := by
  unfold linuxDfStep
  have hscan : GraphWF (st.sysParts.foldl (linuxDfPartScan (mkLinuxLd df) df.source) st)
      ∧ (st.sysParts.foldl (linuxDfPartScan (mkLinuxLd df) df.source) st).parts.length
        = st.parts.length := by
    apply foldl_preserve_mem
      (P := fun s => GraphWF s ∧ s.parts.length = st.parts.length)
      (f := linuxDfPartScan (mkLinuxLd df) df.source) (l := st.sysParts)
    · intro a p hpmem ha
      have hp : p < a.parts.length := by
        rw [ha.2]
        rw [h.sysParts_eq] at hpmem
        simpa using hpmem
      have := graphWF_dfPartScan a p (mkLinuxLd df) df.source rfl rfl ha.1 hp
      exact ⟨this.1, by rw [this.2, ha.2]⟩
    · exact ⟨h, rfl⟩
  apply foldl_preserve_mem
    (P := fun s => GraphWF s ∧ st.parts.length ≤ s.parts.length)
    (f := linuxDfDiskScan (mkLinuxLd df) df.source)
  · intro a d _ ha
    have := graphWF_dfDiskScan a d (mkLinuxLd df) df.source rfl rfl ha.1
    exact ⟨this.1, Nat.le_trans ha.2 this.2⟩
  · exact ⟨hscan.1, Nat.le_of_eq hscan.2.symm⟩

/-- The Linux builder establishes the invariant. -/
theorem graphWF_linuxParse (bds : List BlockDev) (dfs : List DfRec) :
    GraphWF (linuxParse bds dfs) := by
  unfold linuxParse
  apply foldl_preserve_mem (P := GraphWF) (f := linuxDfStep) (l := dfs)
  · exact fun a b _ ha => (graphWF_linuxDfStep a b ha).1
  apply foldl_preserve_mem (P := GraphWF) (f := linuxPartStep) (l := bds)
  · exact fun a b _ ha => graphWF_linuxPartStep a b ha
  apply foldl_preserve_mem (P := GraphWF) (l := bds)
  · intro a b _ ha
    split
    · exact graphWF_addLinuxDisk a b ha
    · exact ha
  apply foldl_preserve_mem (P := GraphWF) (l := bds)
  · intro a b _ ha
    split
    · exact graphWF_addLinuxDisk a b ha
    · exact ha
  exact graphWF_empty

/-- One logical disk record under a partition preserves the invariant and
the partition count. -/
theorem graphWF_windowsLdStep (p : Nat) (st2 : St) (lr : WinLdRec)
    (h : GraphWF st2) (hp : p < st2.parts.length) :
    GraphWF (windowsLdStep p st2 lr)
    ∧ (windowsLdStep p st2 lr).parts.length = st2.parts.length := by
  unfold windowsLdStep
  have spec := systemAddLd_spec st2 (mkWinLd lr) rfl rfl h
  have hplt : p < (systemAddLogicalDisk st2 (mkWinLd lr)).1.parts.length := by
    rw [spec.2.2.1]
    exact hp
  constructor
  · exact graphWF_wireWindows (systemAddLogicalDisk st2 (mkWinLd lr)).1 p
      (systemAddLogicalDisk st2 (mkWinLd lr)).2 spec.1 hplt spec.2.1
  · rw [wireWindows_parts_length, spec.2.2.1]

/-- One partition record under a disk preserves the invariant. -/
theorem graphWF_windowsPartStep (d : Nat) (st2 : St) (pr : WinPartRec)
    (h : GraphWF st2) : GraphWF (windowsPartStep d st2 pr) := by
  unfold windowsPartStep windowsAddLogicalDisks
  have spec := systemAddPart_spec st2 (mkWinPart pr d) rfl h
  have hwf3 : GraphWF (diskAddPartition (systemAddPartition st2 (mkWinPart pr d)).1 d
      (systemAddPartition st2 (mkWinPart pr d)).2) :=
    graphWF_diskAddPartition _ _ _ spec.1
  have hp3 : (systemAddPartition st2 (mkWinPart pr d)).2
      < (diskAddPartition (systemAddPartition st2 (mkWinPart pr d)).1 d
          (systemAddPartition st2 (mkWinPart pr d)).2).parts.length := spec.2.1
  have := foldl_preserve_mem
    (P := fun s => GraphWF s ∧ (systemAddPartition st2 (mkWinPart pr d)).2 < s.parts.length)
    (f := windowsLdStep (systemAddPartition st2 (mkWinPart pr d)).2) (l := pr.lds)
    (h := by
      intro a lr _ ha
      have := graphWF_windowsLdStep _ a lr ha.1 ha.2
      exact ⟨this.1, by rw [this.2]; exact ha.2⟩)
    _ ⟨hwf3, hp3⟩
  exact this.1

/-- One disk record preserves the invariant. -/
theorem graphWF_windowsDiskStep (st : St) (dr : WinDiskRec) (h : GraphWF st) :
    GraphWF (windowsDiskStep st dr) := by
  unfold windowsDiskStep windowsAddPartitions
  apply foldl_preserve_mem (P := GraphWF) (l := dr.parts)
  · exact fun a pr _ ha => graphWF_windowsPartStep _ a pr ha
  exact graphWF_appendDisk st _ h

/-- The Windows builder establishes the invariant. -/
theorem graphWF_windowsParse (recs : List WinDiskRec) :
    GraphWF (windowsParse recs) := by
  unfold windowsParse
  apply foldl_preserve_mem (P := GraphWF) (f := windowsDiskStep) (l := recs)
  · exact fun a b _ ha => graphWF_windowsDiskStep a b ha
  exact graphWF_empty

/-! ## Partition `Device I.D.` uniqueness (Windows builder) -/

/-- Stored partitions have pairwise distinct `Device I.D.`s. -/
def partIdsInjective (st : St) : Prop :=
  ∀ p1 p2, p1 < st.parts.length → p2 < st.parts.length →
    (st.part p1).deviceId = (st.part p2).deviceId → p1 = p2

theorem part_congr (st st' : St) (h : st'.parts = st.parts) (x : Nat) :
    st'.part x = st.part x := by
  unfold St.part
  rw [h]

theorem ld_congr (st st' : St) (h : st'.lds = st.lds) (x : Nat) :
    st'.ld x = st.ld x := by
  unfold St.ld
  rw [h]

theorem disk_congr (st st' : St) (h : st'.disks = st.disks) (x : Nat) :
    st'.disk x = st.disk x := by
  unfold St.disk
  rw [h]

theorem partIdsInjective_transport (st st' : St)
    (hlen : st'.parts.length = st.parts.length)
    (hids : ∀ x, (st'.part x).deviceId = (st.part x).deviceId)
    (hinj : partIdsInjective st) : partIdsInjective st' := by
  intro p1 p2 h1 h2 heq
  rw [hlen] at h1 h2
  rw [hids p1, hids p2] at heq
  exact hinj p1 p2 h1 h2 heq

theorem systemAddLd_parts (st : St) (lObj : LDObj) :
    (systemAddLogicalDisk st lObj).1.parts = st.parts := by
  unfold systemAddLogicalDisk
  cases st.sysLds.find? (fun r => (st.ld r).deviceId == lObj.deviceId) <;> rfl

theorem systemAddPart_disks (st : St) (pObj : PartObj) :
    (systemAddPartition st pObj).1.disks = st.disks := by
  unfold systemAddPartition
  cases st.sysParts.find? (fun r => (st.part r).deviceId == pObj.deviceId) <;> rfl

theorem systemAddLd_disks (st : St) (lObj : LDObj) :
    (systemAddLogicalDisk st lObj).1.disks = st.disks := by
  unfold systemAddLogicalDisk
  cases st.sysLds.find? (fun r => (st.ld r).deviceId == lObj.deviceId) <;> rfl

/-- `System._add_partition` keeps the partition `Device I.D.`s pairwise
distinct: it only allocates after an unsuccessful scan of the flat index. -/
theorem partInj_systemAddPart (st : St) (pObj : PartObj) (h : GraphWF st)
    (hinj : partIdsInjective st) :
    partIdsInjective (systemAddPartition st pObj).1 := by
  unfold systemAddPartition
  cases hfind : st.sysParts.find? (fun r => (st.part r).deviceId == pObj.deviceId) with
  | some r => exact hinj
  | none =>
    have hfresh : ∀ x, x < st.parts.length → (st.part x).deviceId ≠ pObj.deviceId := by
      intro x hx
      have hxmem : x ∈ st.sysParts := by
        rw [h.sysParts_eq]
        simpa using hx
      have := List.find?_eq_none.mp hfind x hxmem
      simpa using this
    intro p1 p2 h1 h2 heq
    have hlen : (({ st with
        parts := st.parts ++ [pObj]
        sysParts := st.sysParts ++ [st.parts.length] } : St)).parts.length
        = st.parts.length + 1 := by
      simp
    have hold : ∀ q, q < st.parts.length →
        (({ st with
            parts := st.parts ++ [pObj]
            sysParts := st.sysParts ++ [st.parts.length] } : St)).part q = st.part q := by
      intro q hq
      show (st.parts ++ [pObj]).getD q default = st.parts.getD q default
      exact getD_append_left st.parts pObj default q hq
    have hnew : (({ st with
        parts := st.parts ++ [pObj]
        sysParts := st.sysParts ++ [st.parts.length] } : St)).part st.parts.length
        = pObj := getD_append_self st.parts pObj default
    rw [hlen] at h1 h2
    rcases Nat.lt_succ_iff_lt_or_eq.mp h1 with h1b | rfl <;>
      rcases Nat.lt_succ_iff_lt_or_eq.mp h2 with h2b | rfl
    · rw [hold p1 h1b, hold p2 h2b] at heq
      exact hinj p1 p2 h1b h2b heq
    · rw [hold p1 h1b, hnew] at heq
      exact absurd heq (hfresh p1 h1b)
    · rw [hnew, hold p2 h2b] at heq
      exact absurd heq.symm (hfresh p2 h2b)
    · rfl

theorem partInj_windowsLdStep (p : Nat) (st2 : St) (lr : WinLdRec)
    (hinj : partIdsInjective st2) :
    partIdsInjective (windowsLdStep p st2 lr) := by
  unfold windowsLdStep
  apply partIdsInjective_transport st2
  · rw [wireWindows_parts_length, systemAddLd_parts]
  · intro x
    have h1 := (partAddLd_part_fields
      (logicalDiskAddPartition (systemAddLogicalDisk st2 (mkWinLd lr)).1
        (systemAddLogicalDisk st2 (mkWinLd lr)).2 p)
      p (systemAddLogicalDisk st2 (mkWinLd lr)).2 x).1
    rw [h1, ldAddPart_part,
      part_congr st2 _ (systemAddLd_parts st2 (mkWinLd lr)) x]
  · exact hinj

theorem partInj_windowsPartStep (d : Nat) (st2 : St) (pr : WinPartRec)
    (h : GraphWF st2) (hinj : partIdsInjective st2) :
    partIdsInjective (windowsPartStep d st2 pr)
    ∧ GraphWF (windowsPartStep d st2 pr) := by
  constructor
  · unfold windowsPartStep windowsAddLogicalDisks
    have hinj1 : partIdsInjective (systemAddPartition st2 (mkWinPart pr d)).1 :=
      partInj_systemAddPart st2 (mkWinPart pr d) h hinj
    have hinj2 : partIdsInjective (diskAddPartition
        (systemAddPartition st2 (mkWinPart pr d)).1 d
        (systemAddPartition st2 (mkWinPart pr d)).2) := by
      apply partIdsInjective_transport (systemAddPartition st2 (mkWinPart pr d)).1
      · rw [diskAddPart_parts]
      · intro x
        rw [diskAddPart_part]
      · exact hinj1
    apply foldl_preserve_mem (P := partIdsInjective)
    · exact fun a lr _ ha => partInj_windowsLdStep _ a lr ha
    · exact hinj2
  · exact graphWF_windowsPartStep d st2 pr h

theorem partInj_windowsDiskStep (st : St) (dr : WinDiskRec)
    (h : GraphWF st) (hinj : partIdsInjective st) :
    partIdsInjective (windowsDiskStep st dr) ∧ GraphWF (windowsDiskStep st dr) := by
  have hinj1 : partIdsInjective { st with
      disks := st.disks ++ [⟨0, dr.deviceId, dr.deviceId, []⟩]
      sysDisks := st.sysDisks ++ [st.disks.length] } := by
    apply partIdsInjective_transport st
    · rfl
    · intro x
      rfl
    · exact hinj
  have hwf1 : GraphWF { st with
      disks := st.disks ++ [⟨0, dr.deviceId, dr.deviceId, []⟩]
      sysDisks := st.sysDisks ++ [st.disks.length] } :=
    graphWF_appendDisk st _ h
  unfold windowsDiskStep windowsAddPartitions
  have := foldl_preserve_mem
    (P := fun s => partIdsInjective s ∧ GraphWF s)
    (f := windowsPartStep st.disks.length) (l := dr.parts)
    (h := by
      intro a pr _ ha
      have := partInj_windowsPartStep st.disks.length a pr ha.2 ha.1
      exact ⟨this.1, this.2⟩)
    _ ⟨hinj1, hwf1⟩
  exact ⟨this.1, this.2⟩

/-- The Windows builder keeps partition `Device I.D.`s pairwise distinct. -/
theorem partInj_windowsParse (recs : List WinDiskRec) :
    partIdsInjective (windowsParse recs) := by
  unfold windowsParse
  have := foldl_preserve_mem
    (P := fun s => partIdsInjective s ∧ GraphWF s)
    (f := windowsDiskStep) (l := recs)
    (h := by
      intro a dr _ ha
      have := partInj_windowsDiskStep a dr ha.2 ha.1
      exact ⟨this.1, this.2⟩)
    _ ⟨fun p1 p2 h1 _ _ => absurd h1 (by simp [St.part]), graphWF_empty⟩
  exact this.1

/-! ## Flat-index distinctness, as `Pairwise` over the registered lists -/

/-- No two entries of the flat partition index share a `Device I.D.`. -/
def flatPartitionIdsDistinct (st : St) : Prop :=
  st.sysParts.Pairwise (fun r1 r2 => (st.part r1).deviceId ≠ (st.part r2).deviceId)

/-- No two entries of the flat logical disk index share a `Device I.D.`. -/
def flatLogicalDiskIdsDistinct (st : St) : Prop :=
  st.sysLds.Pairwise (fun r1 r2 => (st.ld r1).deviceId ≠ (st.ld r2).deviceId)

theorem flatPartition_of_inj (st : St) (h : GraphWF st)
    (hinj : partIdsInjective st) : flatPartitionIdsDistinct st := by
  unfold flatPartitionIdsDistinct
  rw [h.sysParts_eq, List.pairwise_iff_get]
  intro i j hij
  simp only [List.get_eq_getElem, List.getElem_range]
  intro heq
  have hi : (i : Nat) < st.parts.length := by simpa using i.2
  have hj : (j : Nat) < st.parts.length := by simpa using j.2
  have : (i : Nat) = (j : Nat) := hinj i j hi hj heq
  omega

theorem flatLogicalDisk_of_wf (st : St) (h : GraphWF st) :
    flatLogicalDiskIdsDistinct st := by
  unfold flatLogicalDiskIdsDistinct
  rw [h.sysLds_eq, List.pairwise_iff_get]
  intro i j hij
  simp only [List.get_eq_getElem, List.getElem_range]
  intro heq
  have hi : (i : Nat) < st.lds.length := by simpa using i.2
  have hj : (j : Nat) < st.lds.length := by simpa using j.2
  have : (i : Nat) = (j : Nat) := h.ldInj i j hi hj heq
  omega

/-! ## Shape of the per-disk partition lists in the Windows builder -/

theorem setDisk_disk_self (st : St) (d : Nat) (o : DiskObj) (h : d < st.disks.length) :
    ((st.setDisk d o).disk d) = o :=
  getD_set_self st.disks d o default h

theorem setDisk_disk_ne (st : St) (d x : Nat) (o : DiskObj) (h : d ≠ x) :
    ((st.setDisk d o).disk x) = st.disk x :=
  getD_set_ne st.disks d x h o default

theorem diskAddPart_disk_self (st : St) (d p : Nat) (h : d < st.disks.length) :
    ((diskAddPartition st d p).disk d).partitions = (st.disk d).partitions ++ [p] := by
  unfold diskAddPartition
  rw [setDisk_disk_self st d _ h]

theorem diskAddPart_disk_ne (st : St) (d p x : Nat) (h : d ≠ x) :
    (diskAddPartition st d p).disk x = st.disk x := by
  unfold diskAddPartition
  exact setDisk_disk_ne st d x _ h

theorem windowsLdStep_disks (p : Nat) (st2 : St) (lr : WinLdRec) :
    (windowsLdStep p st2 lr).disks = st2.disks := by
  unfold windowsLdStep
  rw [partAddLd_disks, ldAddPart_disks, systemAddLd_disks]

theorem windowsAddLogicalDisks_disks (st : St) (ldRecs : List WinLdRec) (p : Nat) :
    (windowsAddLogicalDisks st ldRecs p).disks = st.disks := by
  unfold windowsAddLogicalDisks
  have hstep : ∀ (a : St) (lr : WinLdRec), lr ∈ ldRecs →
      (fun s => s.disks = st.disks) a →
      (fun s => s.disks = st.disks) (windowsLdStep p a lr) := by
    intro a lr _ ha
    show (windowsLdStep p a lr).disks = st.disks
    rw [windowsLdStep_disks]
    exact ha
  exact foldl_preserve_mem (fun s => s.disks = st.disks) (windowsLdStep p) ldRecs hstep st rfl

/-- One partition record: the owning disk's list gains exactly one entry;
no other disk changes. -/
theorem windowsPartStep_disk (d : Nat) (st2 : St) (pr : WinPartRec)
    (hd : d < st2.disks.length) :
    (windowsPartStep d st2 pr).disks.length = st2.disks.length
    ∧ ((windowsPartStep d st2 pr).disk d).partitions.length
        = (st2.disk d).partitions.length + 1
    ∧ ∀ x, x ≠ d → (windowsPartStep d st2 pr).disk x = st2.disk x := by
  unfold windowsPartStep
  have hd1 : d < (systemAddPartition st2 (mkWinPart pr d)).1.disks.length := by
    rw [systemAddPart_disks]
    exact hd
  have hAll : (windowsAddLogicalDisks
      (diskAddPartition (systemAddPartition st2 (mkWinPart pr d)).1 d
        (systemAddPartition st2 (mkWinPart pr d)).2) pr.lds
      (systemAddPartition st2 (mkWinPart pr d)).2).disks
      = (diskAddPartition (systemAddPartition st2 (mkWinPart pr d)).1 d
        (systemAddPartition st2 (mkWinPart pr d)).2).disks :=
    windowsAddLogicalDisks_disks _ _ _
  refine ⟨?_, ?_, ?_⟩
  · rw [hAll, diskAddPart_disks_length, systemAddPart_disks]
  · rw [disk_congr _ _ hAll, diskAddPart_disk_self _ _ _ hd1,
      disk_congr _ _ (systemAddPart_disks st2 (mkWinPart pr d))]
    simp
  · intro x hx
    rw [disk_congr _ _ hAll, diskAddPart_disk_ne _ _ _ _ (fun e => hx e.symm),
      disk_congr _ _ (systemAddPart_disks st2 (mkWinPart pr d))]

/-- The partition loop under one disk record: the disk's list gains exactly
one entry per record enumerated. -/
theorem windowsAddPartitions_disk (d : Nat) :
    ∀ (prs : List WinPartRec) (st : St), d < st.disks.length →
    (prs.foldl (windowsPartStep d) st).disks.length = st.disks.length
    ∧ ((prs.foldl (windowsPartStep d) st).disk d).partitions.length
        = (st.disk d).partitions.length + prs.length
    ∧ ∀ x, x ≠ d → (prs.foldl (windowsPartStep d) st).disk x = st.disk x := by
  intro prs
  induction prs with
  | nil =>
    intro st hd
    exact ⟨rfl, rfl, fun x _ => rfl⟩
  | cons pr rest ih =>
    intro st hd
    have hstep := windowsPartStep_disk d st pr hd
    have hd2 : d < (windowsPartStep d st pr).disks.length := by
      rw [hstep.1]
      exact hd
    obtain ⟨e1, e2, e3⟩ := ih (windowsPartStep d st pr) hd2
    refine ⟨?_, ?_, ?_⟩
    · show (rest.foldl (windowsPartStep d) (windowsPartStep d st pr)).disks.length
        = st.disks.length
      rw [e1, hstep.1]
    · show ((rest.foldl (windowsPartStep d) (windowsPartStep d st pr)).disk d).partitions.length
        = (st.disk d).partitions.length + (pr :: rest).length
      rw [e2, hstep.2.1, List.length_cons]
      omega
    · intro x hx
      show (rest.foldl (windowsPartStep d) (windowsPartStep d st pr)).disk x = st.disk x
      rw [e3 x hx, hstep.2.2 x hx]

/-- Structure of the Windows builder output over the disks: one disk per
record, in order, never revisited; each disk's partition list has exactly one
entry per raw partition record enumerated under its record. -/
theorem windowsParse_disks :
    ∀ (recs : List WinDiskRec) (st : St),
    (recs.foldl windowsDiskStep st).disks.length = st.disks.length + recs.length
    ∧ (∀ x, x < st.disks.length → (recs.foldl windowsDiskStep st).disk x = st.disk x)
    ∧ ∀ j, j < recs.length →
        ((recs.foldl windowsDiskStep st).disk (st.disks.length + j)).partitions.length
          = (recs.getD j default).parts.length := by
  intro recs
  induction recs with
  | nil =>
    intro st
    refine ⟨rfl, fun x _ => rfl, ?_⟩
    intro j hj
    exact absurd hj (Nat.not_lt_zero j)
  | cons dr rest ih =>
    intro st
    have hstep : (windowsDiskStep st dr).disks.length = st.disks.length + 1 := by
      unfold windowsDiskStep
      have := (windowsAddPartitions_disk st.disks.length dr.parts
        { st with
          disks := st.disks ++ [⟨0, dr.deviceId, dr.deviceId, []⟩]
          sysDisks := st.sysDisks ++ [st.disks.length] }
        (by simp)).1
      unfold windowsAddPartitions
      rw [this]
      simp
    have hold : ∀ x, x < st.disks.length → (windowsDiskStep st dr).disk x = st.disk x := by
      intro x hx
      unfold windowsDiskStep
      have := (windowsAddPartitions_disk st.disks.length dr.parts
        { st with
          disks := st.disks ++ [⟨0, dr.deviceId, dr.deviceId, []⟩]
          sysDisks := st.sysDisks ++ [st.disks.length] }
        (by simp)).2.2 x (Nat.ne_of_lt hx)
      unfold windowsAddPartitions
      rw [this]
      show (st.disks ++ [(⟨0, dr.deviceId, dr.deviceId, []⟩ : DiskObj)]).getD x default
        = st.disks.getD x default
      exact getD_append_left st.disks _ default x hx
    have hnewd : ((windowsDiskStep st dr).disk st.disks.length).partitions.length
        = dr.parts.length := by
      unfold windowsDiskStep
      have := (windowsAddPartitions_disk st.disks.length dr.parts
        { st with
          disks := st.disks ++ [⟨0, dr.deviceId, dr.deviceId, []⟩]
          sysDisks := st.sysDisks ++ [st.disks.length] }
        (by simp)).2.1
      unfold windowsAddPartitions
      rw [this]
      have hobj : ({ st with
          disks := st.disks ++ [⟨0, dr.deviceId, dr.deviceId, []⟩]
          sysDisks := st.sysDisks ++ [st.disks.length] } : St).disk st.disks.length
          = ⟨0, dr.deviceId, dr.deviceId, []⟩ := getD_append_self st.disks _ default
      rw [hobj]
      simp
    obtain ⟨e1, e2, e3⟩ := ih (windowsDiskStep st dr)
    refine ⟨?_, ?_, ?_⟩
    · show (rest.foldl windowsDiskStep (windowsDiskStep st dr)).disks.length
        = st.disks.length + (dr :: rest).length
      rw [e1, hstep, List.length_cons]
      omega
    · intro x hx
      show (rest.foldl windowsDiskStep (windowsDiskStep st dr)).disk x = st.disk x
      have hx2 : x < (windowsDiskStep st dr).disks.length := by
        rw [hstep]
        exact Nat.lt_succ_of_lt hx
      rw [e2 x hx2, hold x hx]
    · intro j hj
      cases j with
      | zero =>
        show ((rest.foldl windowsDiskStep (windowsDiskStep st dr)).disk
          (st.disks.length + 0)).partitions.length = dr.parts.length
        have hlt : st.disks.length + 0 < (windowsDiskStep st dr).disks.length := by
          rw [hstep]
          omega
        rw [e2 _ hlt]
        simpa using hnewd
      | succ j2 =>
        have hj2 : j2 < rest.length := by
          rw [List.length_cons] at hj
          omega
        have := e3 j2 hj2
        have harith : (windowsDiskStep st dr).disks.length + j2
            = st.disks.length + (j2 + 1) := by
          rw [hstep]
          omega
        rw [harith] at this
        simpa using this

/-! ## Dummy partition bookkeeping for the Linux builder -/

theorem set_getElem_self {α : Type} (l : List α) (i : Nat) (h : i < l.length) :
    l.set i l[i] = l := by
  apply List.ext_getElem?
  intro n
  by_cases hn : i = n
  · subst hn
    rw [List.getElem?_set_self h, List.getElem?_eq_getElem h]
  · rw [List.getElem?_set_ne hn]

theorem count_filter_eq {α : Type} [DecidableEq α] (l : List α) (p : α → Bool) (a : α) :
    (l.filter p).count a = if p a then l.count a else 0 := by
  induction l with
  | nil => simp
  | cons x xs ih =>
    rw [List.filter_cons]
    by_cases hx : p x
    · simp only [hx, if_true, List.count_cons, ih]
      by_cases hxa : x = a
      · subst hxa
        simp [hx]
      · simp [hxa]
    · simp only [hx, Bool.false_eq_true, if_false]
      rw [ih]
      by_cases hpa : p a
      · by_cases hxa : x = a
        · subst hxa
          exact absurd hpa hx
        · simp [hpa, List.count_cons, hxa]
      · simp [hpa]

/-- Setting an entry whose projection is unchanged leaves the projected list
unchanged. -/
theorem map_set_eq_of_eq {α β : Type} [Inhabited α] (l : List α) (i : Nat) (o : α)
    (f : α → β) (h : f o = f (l.getD i default)) : (l.set i o).map f = l.map f := by
  by_cases hi : i < l.length
  · rw [List.map_set]
    have hgd : l.getD i default = l[i] := by
      simp [List.getD_eq_getElem?_getD, List.getElem?_eq_getElem hi]
    rw [hgd] at h
    rw [h]
    have hi2 : i < (l.map f).length := by simpa using hi
    have hmap : (l.map f)[i] = f l[i] := by
      simp
    rw [← hmap]
    exact set_getElem_self (l.map f) i hi2
  · rw [List.set_eq_of_length_le (Nat.le_of_not_lt hi)]

/-- The `(isdummy, owning disk)` projection of the partition store: the data
that decides which entries are dummy partitions of which disk. -/
def partMarks (st : St) : List (Bool × Option Nat) :=
  st.parts.map (fun po => (po.isdummy, po.disk))

/-- How many dummy partitions wrap disk `d`. -/
def dummiesFor (st : St) (d : Nat) : Nat :=
  (st.parts.filter (fun po => po.isdummy && po.disk == some d)).length

/-- The paths of the physical disks, in store order. -/
def diskPaths (st : St) : List String :=
  st.disks.map (fun dObj => dObj.path)

theorem diskPath_getD (st : St) (d : Nat) :
    (st.disk d).path = (diskPaths st).getD d "" := by
  unfold diskPaths St.disk
  by_cases hd : d < st.disks.length
  · simp [List.getD_eq_getElem?_getD, List.getElem?_eq_getElem hd,
      List.getElem?_map]
  · have h1 : st.disks.getD d default = default :=  by
      simp [List.getD_eq_getElem?_getD, List.getElem?_eq_none (Nat.le_of_not_lt hd)]
    have h2 : (st.disks.map (fun dObj => dObj.path)).getD d "" = "" := by
      have : d ≥ (st.disks.map (fun dObj => dObj.path)).length := by
        simpa using Nat.le_of_not_lt hd
      simp [List.getD_eq_getElem?_getD, List.getElem?_eq_none this]
    rw [h1, h2]
    rfl

theorem partAddLd_marks (st : St) (p l : Nat) :
    partMarks (partitionAddLogicalDisk st p l) = partMarks st := by
  unfold partitionAddLogicalDisk
  split
  · rfl
  · show partMarks (st.setPart p _) = partMarks st
    unfold partMarks St.setPart
    apply map_set_eq_of_eq
    rfl

theorem ldAddPart_marks (st : St) (l p : Nat) :
    partMarks (logicalDiskAddPartition st l p) = partMarks st := rfl

theorem diskAddPart_marks (st : St) (d p : Nat) :
    partMarks (diskAddPartition st d p) = partMarks st := rfl

theorem linuxAddLd_parts_eq (st : St) (lObj : LDObj) :
    (linuxAddLogicalDisk st lObj).1.parts = st.parts := by
  unfold linuxAddLogicalDisk
  cases st.sysLds.find? (fun r => (st.ld r).name == lObj.name) <;> rfl

theorem linuxAddLd_disks_eq (st : St) (lObj : LDObj) :
    (linuxAddLogicalDisk st lObj).1.disks = st.disks := by
  unfold linuxAddLogicalDisk
  cases st.sysLds.find? (fun r => (st.ld r).name == lObj.name) <;> rfl

theorem linuxAddLd_marks (st : St) (lObj : LDObj) :
    partMarks (linuxAddLogicalDisk st lObj).1 = partMarks st := by
  unfold partMarks
  rw [linuxAddLd_parts_eq]

theorem diskAddPart_paths (st : St) (d p : Nat) :
    diskPaths (diskAddPartition st d p) = diskPaths st := by
  unfold diskAddPartition St.setDisk diskPaths
  apply map_set_eq_of_eq
  rfl

theorem partAddLd_paths (st : St) (p l : Nat) :
    diskPaths (partitionAddLogicalDisk st p l) = diskPaths st := by
  unfold diskPaths
  rw [partAddLd_disks]

theorem ldAddPart_paths (st : St) (l p : Nat) :
    diskPaths (logicalDiskAddPartition st l p) = diskPaths st := rfl

theorem linuxAddLd_paths (st : St) (lObj : LDObj) :
    diskPaths (linuxAddLogicalDisk st lObj).1 = diskPaths st := by
  unfold diskPaths
  rw [linuxAddLd_disks_eq]

theorem partMarks_length (st : St) : (partMarks st).length = st.parts.length := by
  simp [partMarks]

theorem dummiesFor_marks (st : St) (d : Nat) :
    dummiesFor st d = (partMarks st).countP (fun m => m.1 && (m.2 == some d)) := by
  unfold dummiesFor partMarks
  rw [← List.countP_eq_length_filter, List.countP_map]
  apply List.countP_congr
  intro po _
  rfl

theorem dummyMark_countP (L : List Nat) (d : Nat) :
    (L.map (fun d2 => ((true : Bool), some d2))).countP
        (fun m => m.1 && (m.2 == some d))
      = L.countP (fun d2 => d2 == d) := by
  rw [List.countP_map]
  apply List.countP_congr
  intro a _
  simp

theorem countP_beq_filter_range (p : Nat → Bool) (n d : Nat) :
    ((List.range n).filter p).countP (fun d2 => d2 == d)
      = if d < n ∧ p d then 1 else 0 := by
  induction n with
  | zero => simp
  | succ m ih =>
    rw [List.range_succ, List.filter_append, List.countP_append, ih]
    have hsingle : (List.filter p [m]).countP (fun d2 => d2 == d)
        = if p m ∧ m = d then 1 else 0 := by
      by_cases hp : p m
      · simp only [List.filter_cons, hp, if_true, List.filter_nil]
        by_cases hmd : m = d
        · subst hmd
          simp
        · simp [List.countP_cons, hmd]
      · simp [List.filter_cons, hp]
    rw [hsingle]
    by_cases hdm : d = m
    · subst hdm
      by_cases hp : p d
      · simp [hp, Nat.lt_irrefl, Nat.lt_succ_self]
      · simp [hp]
    · by_cases hdlt : d < m
      · have h1 : d < m + 1 := Nat.lt_succ_of_lt hdlt
        have h2 : ¬ m = d := fun e => hdm e.symm
        by_cases hp : p d
        · simp [hdlt, h1, hp, h2]
        · simp [hp, h2]
      · have h1 : ¬ d < m + 1 := by omega
        have h2 : ¬ m = d := fun e => hdm e.symm
        simp [hdlt, h1, h2]

/-- The partition scan of one `df` line wires edges but allocates no
partition, flips no dummy mark, touches no disk, and keeps every stored
logical disk name. -/
theorem dfPartScan_facts (st0 : St) (ldObj : LDObj) (source : String)
    (hobj : ldObj.name = ldObj.deviceId) (hparts : ldObj.partitions = [])
    (h : GraphWF st0) :
    GraphWF (st0.sysParts.foldl (linuxDfPartScan ldObj source) st0)
    ∧ partMarks (st0.sysParts.foldl (linuxDfPartScan ldObj source) st0) = partMarks st0
    ∧ diskPaths (st0.sysParts.foldl (linuxDfPartScan ldObj source) st0) = diskPaths st0
    ∧ (∀ x, x < st0.lds.length →
        ((st0.sysParts.foldl (linuxDfPartScan ldObj source) st0).ld x).name
          = (st0.ld x).name)
    ∧ st0.lds.length ≤ (st0.sysParts.foldl (linuxDfPartScan ldObj source) st0).lds.length := by
  have := foldl_preserve_mem
    (P := fun s => GraphWF s ∧ partMarks s = partMarks st0 ∧ diskPaths s = diskPaths st0
      ∧ (∀ x, x < st0.lds.length → (s.ld x).name = (st0.ld x).name)
      ∧ st0.lds.length ≤ s.lds.length)
    (f := linuxDfPartScan ldObj source) (l := st0.sysParts)
    (h := by
      intro a p hpmem ha
      obtain ⟨haWF, haMarks, haPaths, haNames, haLen⟩ := ha
      show GraphWF (linuxDfPartScan ldObj source a p) ∧ _
      unfold linuxDfPartScan
      split
      case isFalse => exact ⟨haWF, haMarks, haPaths, haNames, haLen⟩
      case isTrue =>
        have spec := linuxAddLd_spec a ldObj hobj hparts haWF
        have hp : p < a.parts.length := by
          have hp0 : p < st0.parts.length := by
            rw [h.sysParts_eq] at hpmem
            simpa using hpmem
          have : a.parts.length = st0.parts.length := by
            rw [← partMarks_length, haMarks, partMarks_length]
          rw [this]
          exact hp0
        have hplt : p < (linuxAddLogicalDisk a ldObj).1.parts.length := by
          rw [linuxAddLd_parts_eq]
          exact hp
        refine ⟨graphWF_wireLinux _ p _ spec.1 hplt spec.2.1, ?_, ?_, ?_, ?_⟩
        · rw [ldAddPart_marks, partAddLd_marks, linuxAddLd_marks]
          exact haMarks
        · rw [ldAddPart_paths, partAddLd_paths, linuxAddLd_paths]
          exact haPaths
        · intro x hx
          have h1 := (ldAddPart_ld_fields
            (partitionAddLogicalDisk (linuxAddLogicalDisk a ldObj).1 p
              (linuxAddLogicalDisk a ldObj).2)
            (linuxAddLogicalDisk a ldObj).2 p x).2
          rw [h1, partAddLd_ld]
          have hxa : x < a.lds.length := Nat.lt_of_lt_of_le hx haLen
          rw [spec.2.2.2.2.2.2.2.2 x hxa]
          exact haNames x hx
        · rw [ldAddPart_lds_length, partAddLd_lds]
          exact Nat.le_trans haLen spec.2.2.2.2.2.2.2.1)
    st0 ⟨h, rfl, rfl, fun x _ => rfl, Nat.le_refl _⟩
  exact ⟨this.1, this.2.1, this.2.2.1, this.2.2.2.1, this.2.2.2.2⟩

/-- The disk scan of one `df` line: it appends exactly one dummy partition
per scanned disk whose path equals the mount source; every appended partition
is such a dummy, wrapping its disk and carrying exactly the checked logical
disk; everything previously stored keeps its identity. -/
theorem dfDiskScan_facts (ldObj : LDObj) (source : String)
    (hobj : ldObj.name = ldObj.deviceId) (hparts : ldObj.partitions = []) :
    ∀ (ds : List Nat) (st2 : St), GraphWF st2 →
    GraphWF (ds.foldl (linuxDfDiskScan ldObj source) st2)
    ∧ diskPaths (ds.foldl (linuxDfDiskScan ldObj source) st2) = diskPaths st2
    ∧ partMarks (ds.foldl (linuxDfDiskScan ldObj source) st2)
        = partMarks st2
          ++ (ds.filter (fun d => (diskPaths st2).getD d "" == source)).map
              (fun d => ((true : Bool), some d))
    ∧ (∀ x, x < st2.lds.length →
        ((ds.foldl (linuxDfDiskScan ldObj source) st2).ld x).name = (st2.ld x).name)
    ∧ st2.lds.length ≤ (ds.foldl (linuxDfDiskScan ldObj source) st2).lds.length
    ∧ (∀ r, r < st2.parts.length →
        (ds.foldl (linuxDfDiskScan ldObj source) st2).part r = st2.part r)
    ∧ st2.parts.length ≤ (ds.foldl (linuxDfDiskScan ldObj source) st2).parts.length
    ∧ ∀ r, st2.parts.length ≤ r →
        r < (ds.foldl (linuxDfDiskScan ldObj source) st2).parts.length →
        ∃ dr l2, (ds.foldl (linuxDfDiskScan ldObj source) st2).part r = mkDummyPart dr l2
          ∧ ((diskPaths st2).getD dr "" == source) = true
          ∧ l2 < (ds.foldl (linuxDfDiskScan ldObj source) st2).lds.length
          ∧ ((ds.foldl (linuxDfDiskScan ldObj source) st2).ld l2).name = ldObj.name := by
  intro ds
  induction ds with
  | nil =>
    intro st2 h2
    refine ⟨h2, rfl, by simp, fun x _ => rfl, Nat.le_refl _, fun r _ => rfl,
      Nat.le_refl _, ?_⟩
    intro r hr1 hr2
    exact absurd hr2 (Nat.not_lt.mpr hr1)
  | cons d rest ih =>
    intro st2 h2
    simp only [List.foldl_cons]
    by_cases hcond : ((st2.disk d).path == source) = true
    · -- the disk matches: one dummy partition is synthesized
      have hstep : linuxDfDiskScan ldObj source st2 d
          = logicalDiskAddPartition
              (linuxDummyRegister (linuxAddLogicalDisk st2 ldObj).1 d
                (linuxAddLogicalDisk st2 ldObj).2)
              (linuxAddLogicalDisk st2 ldObj).2
              (linuxAddLogicalDisk st2 ldObj).1.parts.length := by
        unfold linuxDfDiskScan
        rw [if_pos hcond]
      have spec := linuxAddLd_spec st2 ldObj hobj hparts h2
      have hWFstep : GraphWF (linuxDfDiskScan ldObj source st2 d) :=
        (graphWF_dfDiskScan st2 d ldObj source hobj hparts h2).1
      have hAparts : (linuxAddLogicalDisk st2 ldObj).1.parts = st2.parts :=
        linuxAddLd_parts_eq st2 ldObj
      have hstepPaths : diskPaths (linuxDfDiskScan ldObj source st2 d) = diskPaths st2 := by
        rw [hstep, ldAddPart_paths]
        show diskPaths (diskAddPartition _ d _) = diskPaths st2
        rw [diskAddPart_paths]
        show diskPaths (linuxAddLogicalDisk st2 ldObj).1 = diskPaths st2
        exact linuxAddLd_paths st2 ldObj
      have hstepMarks : partMarks (linuxDfDiskScan ldObj source st2 d)
          = partMarks st2 ++ [((true : Bool), some d)] := by
        rw [hstep, ldAddPart_marks]
        show partMarks (diskAddPartition _ d _) = _
        rw [diskAddPart_marks]
        show ((linuxAddLogicalDisk st2 ldObj).1.parts
          ++ [mkDummyPart d (linuxAddLogicalDisk st2 ldObj).2]).map _ = _
        rw [List.map_append, hAparts]
        rfl
      have hstepPartsLen : (linuxDfDiskScan ldObj source st2 d).parts.length
          = st2.parts.length + 1 := by
        rw [← partMarks_length, hstepMarks, List.length_append, partMarks_length]
        simp
      have hstepOld : ∀ r, r < st2.parts.length →
          (linuxDfDiskScan ldObj source st2 d).part r = st2.part r := by
        intro r hr
        rw [hstep, ldAddPart_part]
        show ((linuxAddLogicalDisk st2 ldObj).1.parts
          ++ [mkDummyPart d (linuxAddLogicalDisk st2 ldObj).2]).getD r default
          = st2.part r
        rw [hAparts]
        rw [getD_append_left st2.parts _ default r hr]
        rfl
      have hstepNew : (linuxDfDiskScan ldObj source st2 d).part st2.parts.length
          = mkDummyPart d (linuxAddLogicalDisk st2 ldObj).2 := by
        rw [hstep, ldAddPart_part]
        show ((linuxAddLogicalDisk st2 ldObj).1.parts
          ++ [mkDummyPart d (linuxAddLogicalDisk st2 ldObj).2]).getD
          st2.parts.length default = mkDummyPart d (linuxAddLogicalDisk st2 ldObj).2
        rw [hAparts]
        exact getD_append_self st2.parts _ default
      have hstepLdsLen : (linuxDfDiskScan ldObj source st2 d).lds.length
          = (linuxAddLogicalDisk st2 ldObj).1.lds.length := by
        rw [hstep, ldAddPart_lds_length]
        rfl
      have hstepNames : ∀ x, x < (linuxAddLogicalDisk st2 ldObj).1.lds.length →
          ((linuxDfDiskScan ldObj source st2 d).ld x).name
            = ((linuxAddLogicalDisk st2 ldObj).1.ld x).name := by
        intro x _
        rw [hstep]
        have h1 := (ldAddPart_ld_fields
          (linuxDummyRegister (linuxAddLogicalDisk st2 ldObj).1 d
            (linuxAddLogicalDisk st2 ldObj).2)
          (linuxAddLogicalDisk st2 ldObj).2
          (linuxAddLogicalDisk st2 ldObj).1.parts.length x).2
        rw [h1]
        rfl
      obtain ⟨iWF, iPaths, iMarks, iNames, iLdsLen, iOld, iPartsLen, iShape⟩ :=
        ih (linuxDfDiskScan ldObj source st2 d) hWFstep
      have hcondD : ((diskPaths st2).getD d "" == source) = true := by
        rw [← diskPath_getD]
        exact hcond
      refine ⟨iWF, ?_, ?_, ?_, ?_, ?_, ?_, ?_⟩
      · rw [iPaths, hstepPaths]
      · rw [iMarks, hstepPaths, hstepMarks, List.filter_cons, if_pos hcondD,
          List.map_cons, List.append_assoc]
        rfl
      · intro x hx
        have hx2 : x < (linuxDfDiskScan ldObj source st2 d).lds.length := by
          rw [hstepLdsLen]
          exact Nat.lt_of_lt_of_le hx spec.2.2.2.2.2.2.2.1
        rw [iNames x hx2, hstepNames x (by rw [← hstepLdsLen]; exact hx2)]
        rw [spec.2.2.2.2.2.2.2.2 x hx]
      · calc st2.lds.length ≤ (linuxAddLogicalDisk st2 ldObj).1.lds.length :=
              spec.2.2.2.2.2.2.2.1
          _ = (linuxDfDiskScan ldObj source st2 d).lds.length := hstepLdsLen.symm
          _ ≤ _ := iLdsLen
      · intro r hr
        have hr2 : r < (linuxDfDiskScan ldObj source st2 d).parts.length := by
          rw [hstepPartsLen]
          exact Nat.lt_succ_of_lt hr
        rw [iOld r hr2, hstepOld r hr]
      · calc st2.parts.length ≤ st2.parts.length + 1 := Nat.le_succ _
          _ = (linuxDfDiskScan ldObj source st2 d).parts.length := hstepPartsLen.symm
          _ ≤ _ := iPartsLen
      · intro r hr1 hr2
        by_cases hrStep : r < (linuxDfDiskScan ldObj source st2 d).parts.length
        · -- r is the dummy appended by this step
          have : r = st2.parts.length := by
            rw [hstepPartsLen] at hrStep
            omega
          subst this
          refine ⟨d, (linuxAddLogicalDisk st2 ldObj).2, ?_, hcondD, ?_, ?_⟩
          · rw [iOld _ hrStep, hstepNew]
          · have : (linuxAddLogicalDisk st2 ldObj).2
                < (linuxDfDiskScan ldObj source st2 d).lds.length := by
              rw [hstepLdsLen]
              exact spec.2.1
            exact Nat.lt_of_lt_of_le this iLdsLen
          · have hlds : (linuxAddLogicalDisk st2 ldObj).2
                < (linuxDfDiskScan ldObj source st2 d).lds.length := by
              rw [hstepLdsLen]
              exact spec.2.1
            rw [iNames _ hlds, hstepNames _ (by rw [← hstepLdsLen]; exact hlds)]
            exact spec.2.2.1
        · -- r was appended by the remaining scan
          obtain ⟨dr, l2, e1, e2, e3, e4⟩ :=
            iShape r (Nat.le_of_not_lt hrStep) hr2
          rw [hstepPaths] at e2
          exact ⟨dr, l2, e1, e2, e3, e4⟩
    · -- no match: the step is the identity
      have hstep : linuxDfDiskScan ldObj source st2 d = st2 := by
        unfold linuxDfDiskScan
        rw [if_neg hcond]
      have hcondD : ((diskPaths st2).getD d "" == source) = false := by
        rw [← diskPath_getD]
        exact Bool.eq_false_iff.mpr (fun e => hcond e)
      rw [hstep]
      obtain ⟨iWF, iPaths, iMarks, iNames, iLdsLen, iOld, iPartsLen, iShape⟩ :=
        ih st2 h2
      refine ⟨iWF, iPaths, ?_, iNames, iLdsLen, iOld, iPartsLen, iShape⟩
      rw [iMarks, List.filter_cons, hcondD]
      simp

/-- Processing one `df` mount line creates exactly one dummy partition per
physical disk whose path equals the mount source, and nothing else: every
partition the step appends is a dummy wrapping such a disk and holding
exactly one logical disk reference, named after the mount target. -/
theorem linuxDfStep_dummies (st : St) (df : DfRec) (h : GraphWF st) :
    (∀ d, dummiesFor (linuxDfStep st df) d
        = dummiesFor st d
          + (if d < st.disks.length ∧ (st.disk d).path = df.source then 1 else 0))
    ∧ ∀ r, st.parts.length ≤ r → r < (linuxDfStep st df).parts.length →
        ∃ dr l2, (linuxDfStep st df).part r = mkDummyPart dr l2
          ∧ (st.disk dr).path = df.source
          ∧ ((linuxDfStep st df).ld l2).name = df.target := by
  obtain ⟨sWF, sMarks, sPaths, sNames, sLds⟩ :=
    dfPartScan_facts st (mkLinuxLd df) df.source rfl rfl h
  obtain ⟨dWF, dPaths, dMarks, dNames, dLds, dOld, dPartsLen, dShape⟩ :=
    dfDiskScan_facts (mkLinuxLd df) df.source rfl rfl
      (st.sysParts.foldl (linuxDfPartScan (mkLinuxLd df) df.source) st).sysDisks
      (st.sysParts.foldl (linuxDfPartScan (mkLinuxLd df) df.source) st) sWF
  have hstep : linuxDfStep st df
      = (st.sysParts.foldl (linuxDfPartScan (mkLinuxLd df) df.source) st).sysDisks.foldl
          (linuxDfDiskScan (mkLinuxLd df) df.source)
          (st.sysParts.foldl (linuxDfPartScan (mkLinuxLd df) df.source) st) := rfl
  have hs1PartsLen :
      (st.sysParts.foldl (linuxDfPartScan (mkLinuxLd df) df.source) st).parts.length
        = st.parts.length := by
    rw [← partMarks_length, sMarks, partMarks_length]
  have hs1DisksLen :
      (st.sysParts.foldl (linuxDfPartScan (mkLinuxLd df) df.source) st).disks.length
        = st.disks.length := by
    have h1 : (diskPaths (st.sysParts.foldl (linuxDfPartScan (mkLinuxLd df) df.source)
        st)).length = (diskPaths st).length := by
      rw [sPaths]
    simpa [diskPaths] using h1
  constructor
  · intro d
    rw [hstep]
    rw [dummiesFor_marks, dummiesFor_marks, dMarks, sMarks, sPaths, sWF.sysDisks_eq,
      hs1DisksLen, List.countP_append, dummyMark_countP, countP_beq_filter_range]
    have hiff : (d < st.disks.length ∧ ((diskPaths st).getD d "" == df.source) = true)
        ↔ (d < st.disks.length ∧ (st.disk d).path = df.source) := by
      rw [← diskPath_getD]
      simp
    rw [if_congr hiff rfl rfl]
  · intro r hr1 hr2
    rw [hstep] at hr2 ⊢
    obtain ⟨dr, l2, e1, e2, e3, e4⟩ := dShape r (by rw [hs1PartsLen]; exact hr1) hr2
    refine ⟨dr, l2, e1, ?_, e4⟩
    rw [sPaths] at e2
    rw [diskPath_getD]
    simpa using e2

/-! ## The human-readable-size toggle is decided by the last size token -/

/-- The first `s`/`S` token of an option string (the rule the specification
states). -/
def firstSizeTok (s : String) : Option Char :=
  s.toList.find? (fun c => c == 's' || c == 'S')

/-- The value the running `size_human_readable` flag has after folding the
characters of `cs` over a start value `h`: the last size token wins. -/
def lastSizeHuman (cs : List Char) (h : Bool) : Bool :=
  match (cs.filter (fun c => c == 's' || c == 'S')).getLast? with
  | some c => c == 's'
  | none => h

theorem lastSizeHuman_cons_s (cs : List Char) (h : Bool) :
    lastSizeHuman ('s' :: cs) h = lastSizeHuman cs true := by
  unfold lastSizeHuman
  rw [List.filter_cons, if_pos (show (('s' == 's' || 's' == 'S') = true) from by decide)]
  cases hl : (cs.filter (fun c => c == 's' || c == 'S')).getLast? <;>
    simp [List.getLast?_cons, hl]

theorem lastSizeHuman_cons_S (cs : List Char) (h : Bool) :
    lastSizeHuman ('S' :: cs) h = lastSizeHuman cs false := by
  unfold lastSizeHuman
  rw [List.filter_cons, if_pos (show (('S' == 's' || 'S' == 'S') = true) from by decide)]
  cases hl : (cs.filter (fun c => c == 's' || c == 'S')).getLast? <;>
    simp [List.getLast?_cons, hl]

theorem lastSizeHuman_cons_other (c : Char) (cs : List Char) (h : Bool)
    (hs : ¬ c = 's') (hS : ¬ c = 'S') :
    lastSizeHuman (c :: cs) h = lastSizeHuman cs h := by
  unfold lastSizeHuman
  rw [List.filter_cons]
  have hcond : (c == 's' || c == 'S') = false := by
    simp [hs, hS]
  rw [hcond]
  simp

set_option maxHeartbeats 2000000 in
theorem parseDpGo_human (cs : List Char) : ∀ (ret : List String) (lp h : Bool),
    (parseDpGo cs ret lp h).2.2 = lastSizeHuman cs h := by
  induction cs with
  | nil =>
    intro ret lp h
    rfl
  | cons c cs ih =>
    intro ret lp h
    by_cases hs : c = 's'
    · subst hs
      rw [lastSizeHuman_cons_s]
      have hred : parseDpGo ('s' :: cs) ret lp h
          = parseDpGo cs (addToList ret "Size") lp true := rfl
      rw [hred, ih]
    · by_cases hS : c = 'S'
      · subst hS
        rw [lastSizeHuman_cons_S]
        have hred : parseDpGo ('S' :: cs) ret lp h
            = parseDpGo cs (addToList ret "Size") lp false := rfl
        rw [hred, ih]
      · rw [lastSizeHuman_cons_other c cs h hs hS]
        by_cases hq1 : c = 'P'
        · subst hq1
          have hred : parseDpGo ('P' :: cs) ret lp h = parseDpGo cs ret true h := rfl
          rw [hred]
          exact ih _ _ _
        by_cases hq2 : c = 'i'
        · subst hq2
          have hred : parseDpGo ('i' :: cs) ret lp h = parseDpGo cs (addToList ret "Disk Number") lp h := rfl
          rw [hred]
          exact ih _ _ _
        by_cases hq3 : c = 'd'
        · subst hq3
          have hred : parseDpGo ('d' :: cs) ret lp h = parseDpGo cs (addToList ret "Device I.D.") lp h := rfl
          rw [hred]
          exact ih _ _ _
        by_cases hq4 : c = 'p'
        · subst hq4
          have hred : parseDpGo ('p' :: cs) ret lp h = parseDpGo cs (addToList ret "Path") lp h := rfl
          rw [hred]
          exact ih _ _ _
        by_cases hq5 : c = 't'
        · subst hq5
          have hred : parseDpGo ('t' :: cs) ret lp h = parseDpGo cs (addToList ret "Media") lp h := rfl
          rw [hred]
          exact ih _ _ _
        by_cases hq6 : c = 'n'
        · subst hq6
          have hred : parseDpGo ('n' :: cs) ret lp h = parseDpGo cs (addToList ret "Serial") lp h := rfl
          rw [hred]
          exact ih _ _ _
        by_cases hq7 : c = 'm'
        · subst hq7
          have hred : parseDpGo ('m' :: cs) ret lp h = parseDpGo cs (addToList ret "Model") lp h := rfl
          rw [hred]
          exact ih _ _ _
        by_cases hq8 : c = 'c'
        · subst hq8
          have hred : parseDpGo ('c' :: cs) ret lp h = parseDpGo cs (addToList ret "Sectors") lp h := rfl
          rw [hred]
          exact ih _ _ _
        by_cases hq9 : c = 'b'
        · subst hq9
          have hred : parseDpGo ('b' :: cs) ret lp h = parseDpGo cs (addToList ret "Bytes per Sector") lp h := rfl
          rw [hred]
          exact ih _ _ _
        by_cases hq10 : c = 'h'
        · subst hq10
          have hred : parseDpGo ('h' :: cs) ret lp h = parseDpGo cs (addToList ret "Heads") lp h := rfl
          rw [hred]
          exact ih _ _ _
        by_cases hq11 : c = 'C'
        · subst hq11
          have hred : parseDpGo ('C' :: cs) ret lp h = parseDpGo cs (addToList ret "Cylinders") lp h := rfl
          rw [hred]
          exact ih _ _ _
        by_cases hq12 : c = 'f'
        · subst hq12
          have hred : parseDpGo ('f' :: cs) ret lp h = parseDpGo cs (addToList ret "Firmware") lp h := rfl
          rw [hred]
          exact ih _ _ _
        by_cases hq13 : c = 'I'
        · subst hq13
          have hred : parseDpGo ('I' :: cs) ret lp h = parseDpGo cs (addToList ret "Interface") lp h := rfl
          rw [hred]
          exact ih _ _ _
        by_cases hq14 : c = 'M'
        · subst hq14
          have hred : parseDpGo ('M' :: cs) ret lp h = parseDpGo cs (addToList ret "Media Loaded") lp h := rfl
          rw [hred]
          exact ih _ _ _
        by_cases hq15 : c = 'a'
        · subst hq15
          have hred : parseDpGo ('a' :: cs) ret lp h = parseDpGo cs (addToList ret "Status") lp h := rfl
          rw [hred]
          exact ih _ _ _
        have hred : parseDpGo (c :: cs) ret lp h = parseDpGo cs ret lp h := by
          rw [parseDpGo]
          rw [if_neg hq1, if_neg hs, if_neg hS, if_neg hq2, if_neg hq3, if_neg hq4, if_neg hq5, if_neg hq6, if_neg hq7, if_neg hq8, if_neg hq9, if_neg hq10, if_neg hq11, if_neg hq12, if_neg hq13, if_neg hq14, if_neg hq15]
        rw [hred]
        exact ih _ _ _

set_option maxHeartbeats 2000000 in
theorem parsePpGo_human (cs : List Char) : ∀ (ret : List String) (lld sd h : Bool),
    (parsePpGo cs ret lld sd h).2.2.2 = lastSizeHuman cs h := by
  induction cs with
  | nil =>
    intro ret lld sd h
    rfl
  | cons c cs ih =>
    intro ret lld sd h
    by_cases hs : c = 's'
    · subst hs
      rw [lastSizeHuman_cons_s]
      have hred : parsePpGo ('s' :: cs) ret lld sd h
          = parsePpGo cs (addToList ret "Size") lld sd true := rfl
      rw [hred, ih]
    · by_cases hS : c = 'S'
      · subst hS
        rw [lastSizeHuman_cons_S]
        have hred : parsePpGo ('S' :: cs) ret lld sd h
            = parsePpGo cs (addToList ret "Size") lld sd false := rfl
        rw [hred, ih]
      · rw [lastSizeHuman_cons_other c cs h hs hS]
        by_cases hq1 : c = 'L'
        · subst hq1
          have hred : parsePpGo ('L' :: cs) ret lld sd h = parsePpGo cs ret true sd h := rfl
          rw [hred]
          exact ih _ _ _ _
        by_cases hq2 : c = 'D'
        · subst hq2
          have hred : parsePpGo ('D' :: cs) ret lld sd h = parsePpGo cs ret lld true h := rfl
          rw [hred]
          exact ih _ _ _ _
        by_cases hq3 : c = 'b'
        · subst hq3
          have hred : parsePpGo ('b' :: cs) ret lld sd h = parsePpGo cs (addToList ret "Blocksize") lld sd h := rfl
          rw [hred]
          exact ih _ _ _ _
        by_cases hq4 : c = 'B'
        · subst hq4
          have hred : parsePpGo ('B' :: cs) ret lld sd h = parsePpGo cs (addToList ret "Bootable") lld sd h := rfl
          rw [hred]
          exact ih _ _ _ _
        by_cases hq5 : c = 'o'
        · subst hq5
          have hred : parsePpGo ('o' :: cs) ret lld sd h = parsePpGo cs (addToList ret "Active") lld sd h := rfl
          rw [hred]
          exact ih _ _ _ _
        by_cases hq6 : c = 'x'
        · subst hq6
          have hred : parsePpGo ('x' :: cs) ret lld sd h = parsePpGo cs (addToList ret "Description") lld sd h := rfl
          rw [hred]
          exact ih _ _ _ _
        by_cases hq7 : c = 'p'
        · subst hq7
          have hred : parsePpGo ('p' :: cs) ret lld sd h = parsePpGo cs (addToList ret "Path") lld sd h := rfl
          rw [hred]
          exact ih _ _ _ _
        by_cases hq8 : c = 'd'
        · subst hq8
          have hred : parsePpGo ('d' :: cs) ret lld sd h = parsePpGo cs (addToList ret "Device I.D.") lld sd h := rfl
          rw [hred]
          exact ih _ _ _ _
        by_cases hq9 : c = 'i'
        · subst hq9
          have hred : parsePpGo ('i' :: cs) ret lld sd h = parsePpGo cs (addToList ret "Disk Number") lld sd h := rfl
          rw [hred]
          exact ih _ _ _ _
        by_cases hq10 : c = 'N'
        · subst hq10
          have hred : parsePpGo ('N' :: cs) ret lld sd h = parsePpGo cs (addToList ret "Partition Number") lld sd h := rfl
          rw [hred]
          exact ih _ _ _ _
        by_cases hq11 : c = 'c'
        · subst hq11
          have hred : parsePpGo ('c' :: cs) ret lld sd h = parsePpGo cs (addToList ret "Blocks") lld sd h := rfl
          rw [hred]
          exact ih _ _ _ _
        by_cases hq12 : c = 'r'
        · subst hq12
          have hred : parsePpGo ('r' :: cs) ret lld sd h = parsePpGo cs (addToList ret "Primary") lld sd h := rfl
          rw [hred]
          exact ih _ _ _ _
        by_cases hq13 : c = 'e'
        · subst hq13
          have hred : parsePpGo ('e' :: cs) ret lld sd h = parsePpGo cs (addToList ret "Offset") lld sd h := rfl
          rw [hred]
          exact ih _ _ _ _
        by_cases hq14 : c = 't'
        · subst hq14
          have hred : parsePpGo ('t' :: cs) ret lld sd h = parsePpGo cs (addToList ret "Type") lld sd h := rfl
          rw [hred]
          exact ih _ _ _ _
        have hred : parsePpGo (c :: cs) ret lld sd h = parsePpGo cs ret lld sd h := by
          rw [parsePpGo]
          rw [if_neg hq1, if_neg hq2, if_neg hq3, if_neg hq4, if_neg hq5, if_neg hq6, if_neg hq7, if_neg hq8, if_neg hq9, if_neg hq10, if_neg hq11, if_neg hq12, if_neg hs, if_neg hS, if_neg hq13, if_neg hq14]
        rw [hred]
        exact ih _ _ _ _

set_option maxHeartbeats 2000000 in
theorem parseLpGo_human (cs : List Char) : ∀ (ret : List String) (lp h : Bool),
    (parseLpGo cs ret lp h).2.2 = lastSizeHuman cs h := by
  induction cs with
  | nil =>
    intro ret lp h
    rfl
  | cons c cs ih =>
    intro ret lp h
    by_cases hs : c = 's'
    · subst hs
      rw [lastSizeHuman_cons_s]
      have hred : parseLpGo ('s' :: cs) ret lp h
          = parseLpGo cs (addToList ret "Size") lp true := rfl
      rw [hred, ih]
    · by_cases hS : c = 'S'
      · subst hS
        rw [lastSizeHuman_cons_S]
        have hred : parseLpGo ('S' :: cs) ret lp h
            = parseLpGo cs (addToList ret "Size") lp false := rfl
        rw [hred, ih]
      · rw [lastSizeHuman_cons_other c cs h hs hS]
        by_cases hq1 : c = 'P'
        · subst hq1
          have hred : parseLpGo ('P' :: cs) ret lp h = parseLpGo cs ret true h := rfl
          rw [hred]
          exact ih _ _ _
        by_cases hq2 : c = 'x'
        · subst hq2
          have hred : parseLpGo ('x' :: cs) ret lp h = parseLpGo cs (addToList ret "Description") lp h := rfl
          rw [hred]
          exact ih _ _ _
        by_cases hq3 : c = 'd'
        · subst hq3
          have hred : parseLpGo ('d' :: cs) ret lp h = parseLpGo cs (addToList ret "Device I.D.") lp h := rfl
          rw [hred]
          exact ih _ _ _
        by_cases hq4 : c = 't'
        · subst hq4
          have hred : parseLpGo ('t' :: cs) ret lp h = parseLpGo cs (addToList ret "Type") lp h := rfl
          rw [hred]
          exact ih _ _ _
        by_cases hq5 : c = 'f'
        · subst hq5
          have hred : parseLpGo ('f' :: cs) ret lp h = parseLpGo cs (addToList ret "Filesystem") lp h := rfl
          rw [hred]
          exact ih _ _ _
        by_cases hq6 : c = 'F'
        · subst hq6
          have hred : parseLpGo ('F' :: cs) ret lp h = parseLpGo cs (addToList ret "Free Space") lp h := rfl
          rw [hred]
          exact ih _ _ _
        by_cases hq7 : c = 'U'
        · subst hq7
          have hred : parseLpGo ('U' :: cs) ret lp h = parseLpGo cs (addToList ret "Max Component Length") lp h := rfl
          rw [hred]
          exact ih _ _ _
        by_cases hq8 : c = 'v'
        · subst hq8
          have hred : parseLpGo ('v' :: cs) ret lp h = parseLpGo cs (addToList ret "Name") lp h := rfl
          rw [hred]
          exact ih _ _ _
        by_cases hq9 : c = 'M'
        · subst hq9
          have hred : parseLpGo ('M' :: cs) ret lp h = parseLpGo cs (addToList ret "Mounted") lp h := rfl
          rw [hred]
          exact ih _ _ _
        by_cases hq10 : c = 'p'
        · subst hq10
          have hred : parseLpGo ('p' :: cs) ret lp h = parseLpGo cs (addToList ret "Path") lp h := rfl
          rw [hred]
          exact ih _ _ _
        by_cases hq11 : c = 'V'
        · subst hq11
          have hred : parseLpGo ('V' :: cs) ret lp h = parseLpGo cs (addToList ret "Label") lp h := rfl
          rw [hred]
          exact ih _ _ _
        by_cases hq12 : c = 'n'
        · subst hq12
          have hred : parseLpGo ('n' :: cs) ret lp h = parseLpGo cs (addToList ret "Serial") lp h := rfl
          rw [hred]
          exact ih _ _ _
        have hred : parseLpGo (c :: cs) ret lp h = parseLpGo cs ret lp h := by
          rw [parseLpGo]
          rw [if_neg hq1, if_neg hq2, if_neg hq3, if_neg hq4, if_neg hq5, if_neg hq6, if_neg hq7, if_neg hq8, if_neg hq9, if_neg hq10, if_neg hs, if_neg hS, if_neg hq11, if_neg hq12]
        rw [hred]
        exact ih _ _ _

/-! ## Dummy partitions and the render walks -/

/-- No line in the collection is a dummy partition printing its own line. -/
def noDummyLines (st : St) (lines : List Line) : Prop :=
  ∀ line ∈ lines, ∀ q, line.tag = LineTag.partitionLine q →
    (st.part q).isdummy = false

theorem noDummyLines_append (st : St) (l1 l2 : List Line)
    (h1 : noDummyLines st l1) (h2 : noDummyLines st l2) :
    noDummyLines st (l1 ++ l2) := by
  intro line hline q htag
  rcases List.mem_append.mp hline with h | h
  · exact h1 line h q htag
  · exact h2 line h q htag

theorem noDummyLines_single_disk (st : St) (i : Int) (d : Option Nat) :
    noDummyLines st [emit i (.disk d)] := by
  intro line hline q htag
  rcases List.mem_singleton.mp hline with rfl
  simp [emit] at htag

theorem noDummyLines_single_ld (st : St) (i : Int) (l : Nat) :
    noDummyLines st [emit i (.logicalDisk l)] := by
  intro line hline q htag
  rcases List.mem_singleton.mp hline with rfl
  simp [emit] at htag

theorem noDummyLines_single_sys (st : St) :
    noDummyLines st [⟨0, .system⟩] := by
  intro line hline q htag
  rcases List.mem_singleton.mp hline with rfl
  simp at htag

theorem noDummyLines_single_part (st : St) (i : Int) (p : Nat)
    (h : (st.part p).isdummy = false) :
    noDummyLines st [emit i (.partitionLine p)] := by
  intro line hline q htag
  rcases List.mem_singleton.mp hline with rfl
  simp only [emit] at htag
  cases htag
  exact h

theorem noDummyLines_map_ld (st : St) (i : Int) (L : List Nat) :
    noDummyLines st (L.map (fun l => emit i (.logicalDisk l))) := by
  intro line hline q htag
  rcases List.mem_map.mp hline with ⟨l, hl, rfl⟩
  simp [emit] at htag

/-- Step equation for a dummy partition in the disk-first walk: no line of
its own, the logical disks print at the indent the partition line would have
used, and the unconditional decrement still runs. -/
theorem diskFirstPartStep_dummy (st : St) (lld : Bool) (acc : Int × List Line)
    (p : Nat) (hd : (st.part p).isdummy = true) :
    diskFirstPartStep st lld acc p
      = (acc.1 - 2,
         if lld then
           acc.2 ++ (st.part p).logicalDisks.map
             (fun l => emit acc.1 (.logicalDisk l))
         else acc.2) := by
  simp [diskFirstPartStep, hd]

/-- Step equation for a non-dummy partition in the disk-first walk. -/
theorem diskFirstPartStep_nondummy (st : St) (lld : Bool)
    (acc : Int × List Line) (p : Nat) (hd : (st.part p).isdummy = false) :
    diskFirstPartStep st lld acc p
      = (acc.1,
         if lld then
           (acc.2 ++ [emit acc.1 (.partitionLine p)])
             ++ (st.part p).logicalDisks.map
               (fun l => emit (acc.1 + 2) (.logicalDisk l))
         else acc.2 ++ [emit acc.1 (.partitionLine p)]) := by
  simp [diskFirstPartStep, hd]

theorem diskFirstPartStep_noDummy (st : St) (lld : Bool)
    (acc : Int × List Line) (p : Nat) (hP : noDummyLines st acc.2) :
    noDummyLines st (diskFirstPartStep st lld acc p).2 := by
  by_cases hd : (st.part p).isdummy
  · rw [diskFirstPartStep_dummy st lld acc p hd]
    by_cases hl : lld
    · rw [if_pos hl]
      exact noDummyLines_append st _ _ hP (noDummyLines_map_ld st _ _)
    · rw [if_neg hl]
      exact hP
  · have hd2 : (st.part p).isdummy = false := by simpa using hd
    rw [diskFirstPartStep_nondummy st lld acc p hd2]
    by_cases hl : lld
    · rw [if_pos hl]
      exact noDummyLines_append st _ _
        (noDummyLines_append st _ _ hP (noDummyLines_single_part st _ p hd2))
        (noDummyLines_map_ld st _ _)
    · rw [if_neg hl]
      exact noDummyLines_append st _ _ hP (noDummyLines_single_part st _ p hd2)

theorem diskFirstDiskStep_noDummy (st : St) (lp lld : Bool)
    (acc : Int × List Line) (d : Nat) (hP : noDummyLines st acc.2) :
    noDummyLines st (diskFirstDiskStep st lp lld acc d).2 := by
  have h0 : noDummyLines st (acc.2 ++ [emit acc.1 (.disk (some d))]) :=
    noDummyLines_append st _ _ hP (noDummyLines_single_disk st _ _)
  by_cases hlp : lp
  · have hred : (diskFirstDiskStep st lp lld acc d).2
        = ((st.disk d).partitions.foldl (diskFirstPartStep st lld)
            (acc.1 + 2, acc.2 ++ [emit acc.1 (.disk (some d))])).2 := by
      simp [diskFirstDiskStep, hlp]
    rw [hred]
    exact foldl_preserve_mem (fun a : Int × List Line => noDummyLines st a.2)
      (diskFirstPartStep st lld) (st.disk d).partitions
      (fun a b _ ha => diskFirstPartStep_noDummy st lld a b ha)
      (acc.1 + 2, acc.2 ++ [emit acc.1 (.disk (some d))]) h0
  · have hred : (diskFirstDiskStep st lp lld acc d).2
        = acc.2 ++ [emit acc.1 (.disk (some d))] := by
      simp [diskFirstDiskStep, hlp]
    rw [hred]
    exact h0

/-- No dummy partition prints a line of its own anywhere in the disk-first
walk. -/
theorem diskFirstLines_noDummy (lp lld : Bool) (st : St) :
    noDummyLines st (diskFirstLinesT lp lld st) := by
  show noDummyLines st (st.sysDisks.foldl
    (diskFirstDiskStep st lp lld) (2, [⟨0, .system⟩])).2
  exact foldl_preserve_mem (fun a : Int × List Line => noDummyLines st a.2)
    (diskFirstDiskStep st lp lld) st.sysDisks
    (fun a b _ ha => diskFirstDiskStep_noDummy st lp lld a b ha)
    (2, [⟨0, .system⟩]) (noDummyLines_single_sys st)

/-- Step equation for a dummy partition in the logical-disk-first walk. -/
theorem ldFirstPartStep_dummy (st : St) (spd : Bool) (acc : Int × List Line)
    (p : Nat) (hd : (st.part p).isdummy = true) :
    ldFirstPartStep st spd acc p
      = (acc.1 - 2,
         if spd then acc.2 ++ [emit acc.1 (.disk (st.part p).disk)]
         else acc.2) := by
  simp [ldFirstPartStep, hd]

/-- Step equation for a non-dummy partition in the logical-disk-first
walk. -/
theorem ldFirstPartStep_nondummy (st : St) (spd : Bool)
    (acc : Int × List Line) (p : Nat) (hd : (st.part p).isdummy = false) :
    ldFirstPartStep st spd acc p
      = (acc.1,
         if spd then
           (acc.2 ++ [emit acc.1 (.partitionLine p)])
             ++ [emit (acc.1 + 2) (.disk (st.part p).disk)]
         else acc.2 ++ [emit acc.1 (.partitionLine p)]) := by
  simp [ldFirstPartStep, hd]

theorem ldFirstPartStep_noDummy (st : St) (spd : Bool)
    (acc : Int × List Line) (p : Nat) (hP : noDummyLines st acc.2) :
    noDummyLines st (ldFirstPartStep st spd acc p).2 := by
  by_cases hd : (st.part p).isdummy
  · rw [ldFirstPartStep_dummy st spd acc p hd]
    by_cases hl : spd
    · rw [if_pos hl]
      exact noDummyLines_append st _ _ hP (noDummyLines_single_disk st _ _)
    · rw [if_neg hl]
      exact hP
  · have hd2 : (st.part p).isdummy = false := by simpa using hd
    rw [ldFirstPartStep_nondummy st spd acc p hd2]
    by_cases hl : spd
    · rw [if_pos hl]
      exact noDummyLines_append st _ _
        (noDummyLines_append st _ _ hP (noDummyLines_single_part st _ p hd2))
        (noDummyLines_single_disk st _ _)
    · rw [if_neg hl]
      exact noDummyLines_append st _ _ hP (noDummyLines_single_part st _ p hd2)

theorem ldFirstLdStep_noDummy (st : St) (lp spd : Bool)
    (acc : Int × List Line) (l : Nat) (hP : noDummyLines st acc.2) :
    noDummyLines st (ldFirstLdStep st lp spd acc l).2 := by
  have h0 : noDummyLines st (acc.2 ++ [emit acc.1 (.logicalDisk l)]) :=
    noDummyLines_append st _ _ hP (noDummyLines_single_ld st _ _)
  by_cases hlp : lp
  · have hred : (ldFirstLdStep st lp spd acc l).2
        = ((st.ld l).partitions.foldl (ldFirstPartStep st spd)
            (acc.1 + 2, acc.2 ++ [emit acc.1 (.logicalDisk l)])).2 := by
      simp [ldFirstLdStep, hlp]
    rw [hred]
    exact foldl_preserve_mem (fun a : Int × List Line => noDummyLines st a.2)
      (ldFirstPartStep st spd) (st.ld l).partitions
      (fun a b _ ha => ldFirstPartStep_noDummy st spd a b ha)
      (acc.1 + 2, acc.2 ++ [emit acc.1 (.logicalDisk l)]) h0
  · have hred : (ldFirstLdStep st lp spd acc l).2
        = acc.2 ++ [emit acc.1 (.logicalDisk l)] := by
      simp [ldFirstLdStep, hlp]
    rw [hred]
    exact h0

/-- No dummy partition prints a line of its own anywhere in the
logical-disk-first walk. -/
theorem logicalDiskFirstLines_noDummy (lp spd : Bool) (st : St) :
    noDummyLines st (logicalDiskFirstLinesT lp spd st) := by
  show noDummyLines st (st.sysLds.foldl
    (ldFirstLdStep st lp spd) (2, [⟨0, .system⟩])).2
  exact foldl_preserve_mem (fun a : Int × List Line => noDummyLines st a.2)
    (ldFirstLdStep st lp spd) st.sysLds
    (fun a b _ ha => ldFirstLdStep_noDummy st lp spd a b ha)
    (2, [⟨0, .system⟩]) (noDummyLines_single_sys st)

/-- The partitions-only (disk-orientation) step always prints the
partition's line, dummy or not. -/
theorem partitionsOnlyDiskStep_mem (st : St) (lld : Bool)
    (acc : Int × List Line) (p : Nat) :
    emit acc.1 (.partitionLine p) ∈ (partitionsOnlyDiskStep st lld acc p).2 := by
  by_cases hl : lld <;> simp [partitionsOnlyDiskStep, hl]

theorem partitionsOnlyDiskStep_mono (st : St) (lld : Bool)
    (acc : Int × List Line) (p : Nat) (x : Line) (hx : x ∈ acc.2) :
    x ∈ (partitionsOnlyDiskStep st lld acc p).2 := by
  by_cases hl : lld <;> simp [partitionsOnlyDiskStep, hl, hx]

theorem partitionsOnlyDiskFold_mono (st : St) (lld : Bool) (l : List Nat)
    (acc : Int × List Line) (x : Line) (hx : x ∈ acc.2) :
    x ∈ (l.foldl (partitionsOnlyDiskStep st lld) acc).2 :=
  foldl_preserve_mem (fun a : Int × List Line => x ∈ a.2) _ l
    (fun a b _ ha => partitionsOnlyDiskStep_mono st lld a b x ha) acc hx

theorem partitionsOnlyDiskFold_mem (st : St) (lld : Bool) (l : List Nat) :
    ∀ acc : Int × List Line, ∀ p ∈ l, ∃ n,
      Line.mk n (.partitionLine p) ∈ (l.foldl (partitionsOnlyDiskStep st lld) acc).2 := by
  induction l with
  | nil =>
    intro acc p hp
    cases hp
  | cons a l ih =>
    intro acc p hp
    rw [List.foldl_cons]
    rcases List.mem_cons.mp hp with rfl | hp2
    · exact ⟨acc.1.toNat,
        partitionsOnlyDiskFold_mono st lld l _ _
          (partitionsOnlyDiskStep_mem st lld acc p)⟩
    · exact ih _ p hp2

/-- Every registered partition — dummies included — gets a line of its own in
the partitions-only walk. -/
theorem partitionsOnlyDisk_mem (lld : Bool) (st : St) (p : Nat)
    (hp : p ∈ st.sysParts) :
    ∃ n, Line.mk n (.partitionLine p) ∈ partitionsOnlyDiskLinesT lld st :=
  partitionsOnlyDiskFold_mem st lld st.sysParts _ p hp

/-- The partitions-only (logical-disk-orientation) step always prints the
partition's line, dummy or not. -/
theorem partitionsOnlyLogicalStep_mem (st : St) (spd : Bool)
    (acc : Int × List Line) (p : Nat) :
    emit acc.1 (.partitionLine p) ∈ (partitionsOnlyLogicalStep st spd acc p).2 := by
  by_cases hl : spd <;> simp [partitionsOnlyLogicalStep, hl]

theorem partitionsOnlyLogicalStep_mono (st : St) (spd : Bool)
    (acc : Int × List Line) (p : Nat) (x : Line) (hx : x ∈ acc.2) :
    x ∈ (partitionsOnlyLogicalStep st spd acc p).2 := by
  by_cases hl : spd <;> simp [partitionsOnlyLogicalStep, hl, hx]

theorem partitionsOnlyLogicalFold_mono (st : St) (spd : Bool) (l : List Nat)
    (acc : Int × List Line) (x : Line) (hx : x ∈ acc.2) :
    x ∈ (l.foldl (partitionsOnlyLogicalStep st spd) acc).2 :=
  foldl_preserve_mem (fun a : Int × List Line => x ∈ a.2) _ l
    (fun a b _ ha => partitionsOnlyLogicalStep_mono st spd a b x ha) acc hx

theorem partitionsOnlyLogicalFold_mem (st : St) (spd : Bool) (l : List Nat) :
    ∀ acc : Int × List Line, ∀ p ∈ l, ∃ n,
      Line.mk n (.partitionLine p)
        ∈ (l.foldl (partitionsOnlyLogicalStep st spd) acc).2 := by
  induction l with
  | nil =>
    intro acc p hp
    cases hp
  | cons a l ih =>
    intro acc p hp
    rw [List.foldl_cons]
    rcases List.mem_cons.mp hp with rfl | hp2
    · exact ⟨acc.1.toNat,
        partitionsOnlyLogicalFold_mono st spd l _ _
          (partitionsOnlyLogicalStep_mem st spd acc p)⟩
    · exact ih _ p hp2

/-- Every registered partition — dummies included — gets a line of its own in
the logical-disk-orientation partitions-only walk as well. -/
theorem partitionsOnlyLogical_mem (spd : Bool) (st : St) (p : Nat)
    (hp : p ∈ st.sysParts) :
    ∃ n, Line.mk n (.partitionLine p) ∈ partitionsOnlyLogicalLinesT spd st :=
  partitionsOnlyLogicalFold_mem st spd st.sysParts _ p hp

/-! ## Repeated wiring of the bidirectional edge (claim C5) -/

/-- One wiring of the bidirectional Partition-LogicalDisk edge, in the order
the builders perform it (linux_system.py:146-148):
`Partition.add_logical_disk` then `LogicalDisk.add_partition`. -/
def wirePair (st : St) (p l : Nat) : St :=
  logicalDiskAddPartition (partitionAddLogicalDisk st p l) l p

theorem wirePair_ld_deviceId (st : St) (p l x : Nat) :
    ((wirePair st p l).ld x).deviceId = (st.ld x).deviceId := by
  show ((logicalDiskAddPartition (partitionAddLogicalDisk st p l) l p).ld x).deviceId = _
  rw [(ldAddPart_ld_fields _ l p x).1]
  exact congrArg LDObj.deviceId
    (ld_congr st (partitionAddLogicalDisk st p l) (partAddLd_lds st p l) x)

theorem wirePair_lds_length (st : St) (p l : Nat) :
    (wirePair st p l).lds.length = st.lds.length := by
  show (logicalDiskAddPartition (partitionAddLogicalDisk st p l) l p).lds.length = _
  rw [ldAddPart_lds_length, partAddLd_lds]

/-- After one wiring, `Partition.add_logical_disk`'s Device-ID membership
test fires: the logical disk's Device ID is now among the partition's
attached logical disks (either it already was, or `l` itself was
appended). -/
theorem wirePair_check (st : St) (p l : Nat) (hp : p < st.parts.length) :
    (((wirePair st p l).part p).logicalDisks.any
      (fun l2 => ((wirePair st p l).ld l2).deviceId
        == ((wirePair st p l).ld l).deviceId)) = true := by
  have hfun : (fun l2 => ((wirePair st p l).ld l2).deviceId
        == ((wirePair st p l).ld l).deviceId)
      = (fun l2 => (st.ld l2).deviceId == (st.ld l).deviceId) := by
    funext l2
    rw [wirePair_ld_deviceId st p l l2, wirePair_ld_deviceId st p l l]
  have hparts : ((wirePair st p l).part p).logicalDisks
      = ((partitionAddLogicalDisk st p l).part p).logicalDisks := by
    show ((logicalDiskAddPartition (partitionAddLogicalDisk st p l) l p).part
      p).logicalDisks = _
    rw [ldAddPart_part]
  rw [hfun, hparts]
  by_cases hc : ((st.part p).logicalDisks.any
      (fun l2 => (st.ld l2).deviceId == (st.ld l).deviceId)) = true
  · have h1 : partitionAddLogicalDisk st p l = st := by
      unfold partitionAddLogicalDisk
      rw [if_pos hc]
    rw [h1]
    exact hc
  · have h1 : ((partitionAddLogicalDisk st p l).part p).logicalDisks
        = (st.part p).logicalDisks ++ [l] := by
      unfold partitionAddLogicalDisk
      rw [if_neg hc, setPart_part_self st p _ hp]
    rw [h1, List.any_append]
    simp

/-- Re-wiring the same edge leaves the partition side untouched: the second
`Partition.add_logical_disk` is deduplicated by Device ID. -/
theorem wirePair_rewire_part (st : St) (p l : Nat) (hp : p < st.parts.length) :
    (wirePair (wirePair st p l) p l).part p = (wirePair st p l).part p := by
  have hc := wirePair_check st p l hp
  have h1 : partitionAddLogicalDisk (wirePair st p l) p l = wirePair st p l := by
    unfold partitionAddLogicalDisk
    rw [if_pos hc]
  show (logicalDiskAddPartition (partitionAddLogicalDisk (wirePair st p l) p l)
    l p).part p = _
  rw [ldAddPart_part, h1]

/-- Re-wiring the same edge appends a second copy of the partition to the
logical disk's list — `LogicalDisk.add_partition` has no deduplication —
even though the partition is already a member. -/
theorem wirePair_rewire_ld (st : St) (p l : Nat) (hp : p < st.parts.length)
    (hl : l < st.lds.length) :
    ((wirePair (wirePair st p l) p l).ld l).partitions
      = ((wirePair st p l).ld l).partitions ++ [p]
    ∧ p ∈ ((wirePair st p l).ld l).partitions := by
  constructor
  · have hc := wirePair_check st p l hp
    have h1 : partitionAddLogicalDisk (wirePair st p l) p l = wirePair st p l := by
      unfold partitionAddLogicalDisk
      rw [if_pos hc]
    show ((logicalDiskAddPartition (partitionAddLogicalDisk (wirePair st p l) p l)
      l p).ld l).partitions = _
    rw [h1]
    exact ldAddPart_ld_self _ l p (by rw [wirePair_lds_length]; exact hl)
  · show p ∈ ((logicalDiskAddPartition (partitionAddLogicalDisk st p l) l p).ld
      l).partitions
    rw [ldAddPart_ld_self _ l p (by rw [partAddLd_lds]; exact hl)]
    exact List.mem_append_right _ (List.mem_singleton_self p)

/-! ## Find-or-create returns the existing instance -/

/-- `System._add_partition` on a state already holding the `Device I.D.`:
the state is unchanged and the returned reference is a registered partition
with that `Device I.D.`. -/
theorem systemAddPart_found (st : St) (pObj : PartObj)
    (hex : ∃ r ∈ st.sysParts, (st.part r).deviceId = pObj.deviceId) :
    (systemAddPartition st pObj).1 = st
    ∧ (systemAddPartition st pObj).2 ∈ st.sysParts
    ∧ (st.part (systemAddPartition st pObj).2).deviceId = pObj.deviceId := by
  obtain ⟨r, hr, hid⟩ := hex
  unfold systemAddPartition
  cases hfind : st.sysParts.find? (fun q => (st.part q).deviceId == pObj.deviceId) with
  | some r2 =>
    have h1 := List.find?_some hfind
    have h2 := List.mem_of_find?_eq_some hfind
    exact ⟨rfl, h2, by simpa using h1⟩
  | none =>
    have h3 := List.find?_eq_none.mp hfind r hr
    rw [hid] at h3
    simp at h3

/-- `System._add_logical_disk` on a state already holding the
`Device I.D.`. -/
theorem systemAddLd_found (st : St) (lObj : LDObj)
    (hex : ∃ r ∈ st.sysLds, (st.ld r).deviceId = lObj.deviceId) :
    (systemAddLogicalDisk st lObj).1 = st
    ∧ (systemAddLogicalDisk st lObj).2 ∈ st.sysLds
    ∧ (st.ld (systemAddLogicalDisk st lObj).2).deviceId = lObj.deviceId := by
  obtain ⟨r, hr, hid⟩ := hex
  unfold systemAddLogicalDisk
  cases hfind : st.sysLds.find? (fun q => (st.ld q).deviceId == lObj.deviceId) with
  | some r2 =>
    have h1 := List.find?_some hfind
    have h2 := List.mem_of_find?_eq_some hfind
    exact ⟨rfl, h2, by simpa using h1⟩
  | none =>
    have h3 := List.find?_eq_none.mp hfind r hr
    rw [hid] at h3
    simp at h3

/-! ## The public graph accessors (`get_*`) -/

/-- `System.get_physical_disks` (system.py:73-74): `tuple(self._physical_disks)`
— the call returns a snapshot of the flat disk list and mutates nothing.
Python tuple immutability is modelled by the snapshot being a pure value. -/
def systemGetPhysicalDisks (st : St) : List Nat × St := (st.sysDisks, st)

/-- `System.get_partitions` (system.py:76-77). -/
def systemGetPartitions (st : St) : List Nat × St := (st.sysParts, st)

/-- `System.get_logical_disks` (system.py:79-80). -/
def systemGetLogicalDisks (st : St) : List Nat × St := (st.sysLds, st)

/-- `PhysicalDisk.get_partitions` (physical_disk.py:55-56). -/
def physicalDiskGetPartitions (st : St) (d : Nat) : List Nat × St :=
  ((st.disk d).partitions, st)

/-- `Partition.get_logical_disks` (partition.py:68-69). -/
def partitionGetLogicalDisks (st : St) (p : Nat) : List Nat × St :=
  ((st.part p).logicalDisks, st)

/-- `LogicalDisk.get_partitions` (logical_disk.py:54-55). -/
def logicalDiskGetPartitions (st : St) (l : Nat) : List Nat × St :=
  ((st.ld l).partitions, st)

/-! ## Concrete build inputs for the claim counterexamples -/

/-- Two whole disks (`sda` via the SCSI rule, `md0` via the metadisk rule),
no partition lines. -/
def ce1Bds : List BlockDev := [⟨"8", 0, 100, "sda"⟩, ⟨"9", 0, 200, "md0"⟩]

/-- Both disks mounted directly (no partition in between): each `df` line's
source is a disk path. -/
def ce1Dfs : List DfRec :=
  [⟨"/dev/sda", "ext4", 1000, 500, "/a"⟩, ⟨"/dev/md0", "ext4", 1000, 500, "/b"⟩]

/-- One direct disk mount: yields exactly one dummy partition under `sda`,
while `md0` keeps no partitions. -/
def ce3Dfs : List DfRec := [⟨"/dev/sda", "ext4", 1000, 500, "/a"⟩]

/-- The configuration `argument_parsing.py` produces for a run with no
command-line options: the argparse defaults `-dp Piptns -pp LDdtse -lp PVfF`
with the flags off. -/
def defaultArgs : ArgsDict :=
  ⟨some false, some "Piptns", some "LDdtse", some "PVfF", some false, none⟩

/-- One partition and one logical disk, not yet wired. -/
def ce5St : St :=
  ⟨[], [⟨"p1", "/dev/p1", false, none, []⟩], [⟨"/a", "/a", "/a", []⟩], [], [0], [0]⟩

/-- One Windows disk record enumerating the same raw partition record
(`Device I.D.` `X`) twice. -/
def ce6Recs : List WinDiskRec := [⟨"disk0", [⟨"X", []⟩, ⟨"X", []⟩]⟩]

/-! ## The ten claims -/

/-- C1 (counterexample): Device-ID uniqueness of the flat partition index
fails on Linux — a build with two direct disk mounts registers two dummy
partitions and both carry `Device I.D.` `""`. -/
theorem c1_counterexample :
    ¬ (∀ bds dfs, flatPartitionIdsDistinct (linuxParse bds dfs)
        ∧ flatLogicalDiskIdsDistinct (linuxParse bds dfs)) := by
  intro h
  have h2 := (h ce1Bds ce1Dfs).1
  unfold flatPartitionIdsDistinct at h2
  revert h2
  decide

/-- C1 (amended): on Windows both flat indexes stay Device-ID-distinct; on
Linux the flat logical-disk index stays distinct (dummy partitions break the
partition side); and the find-or-create helpers `System._add_partition` and
`System._add_logical_disk` return the already-registered instance, leaving
the state unchanged, whenever the `Device I.D.` is already present. -/
theorem c1_amended :
    (∀ recs, flatPartitionIdsDistinct (windowsParse recs)
       ∧ flatLogicalDiskIdsDistinct (windowsParse recs))
    ∧ (∀ bds dfs, flatLogicalDiskIdsDistinct (linuxParse bds dfs))
    ∧ (∀ st pObj, (∃ r ∈ st.sysParts, (st.part r).deviceId = pObj.deviceId) →
        (systemAddPartition st pObj).1 = st
        ∧ (systemAddPartition st pObj).2 ∈ st.sysParts
        ∧ (st.part (systemAddPartition st pObj).2).deviceId = pObj.deviceId)
    ∧ (∀ st lObj, (∃ r ∈ st.sysLds, (st.ld r).deviceId = lObj.deviceId) →
        (systemAddLogicalDisk st lObj).1 = st
        ∧ (systemAddLogicalDisk st lObj).2 ∈ st.sysLds
        ∧ (st.ld (systemAddLogicalDisk st lObj).2).deviceId = lObj.deviceId) := by
  refine ⟨?_, ?_, ?_, ?_⟩
  · intro recs
    exact ⟨flatPartition_of_inj _ (graphWF_windowsParse recs)
        (partInj_windowsParse recs),
      flatLogicalDisk_of_wf _ (graphWF_windowsParse recs)⟩
  · intro bds dfs
    exact flatLogicalDisk_of_wf _ (graphWF_linuxParse bds dfs)
  · intro st pObj hex
    exact systemAddPart_found st pObj hex
  · intro st lObj hex
    exact systemAddLd_found st lObj hex

/-- C2 (code bug, modelled divergence): with the default configuration the
disk-first walk aborts with `AttributeError` on
`physical_disk_list_partitions` at the first disk, because
`SanitizedArguments.__init__` binds the structural toggles as locals only
and never assigns them to the instance. -/
theorem c2_attribute_error :
    mainLines (sanitizedArguments defaultArgs) (linuxParse ce1Bds ce3Dfs)
      = .error (.attributeError "physical_disk_list_partitions") := by
  rfl

/-- C3 (code bug, modelled divergence): after a disk whose partition list
holds a dummy partition, the running indent has been decremented without a
matching increment, so the next sibling disk's line prints at column 0
instead of 2 — indentation no longer equals twice the nesting depth. -/
theorem c3_indent_corruption :
    diskFirstLinesT true false (linuxParse ce1Bds ce3Dfs)
      = [⟨0, .system⟩, ⟨2, .disk (some 0)⟩, ⟨0, .disk (some 1)⟩] := by
  decide

/-- C4 (confirmed): in every System either builder produces, a logical disk
is attached to a partition exactly when the partition is attached to the
logical disk — the bidirectional edges always come in matching pairs. -/
theorem c4_edges_match :
    (∀ bds dfs, edgesMatch (linuxParse bds dfs))
    ∧ (∀ recs, edgesMatch (windowsParse recs)) :=
  ⟨fun bds dfs => (graphWF_linuxParse bds dfs).edges,
   fun recs => (graphWF_windowsParse recs).edges⟩

/-- C5 (counterexample): wiring the same Partition-LogicalDisk edge twice is
not a no-op — the logical-disk side appends a duplicate. -/
theorem c5_counterexample :
    ¬ (∀ st p l, p < st.parts.length → l < st.lds.length →
        wirePair (wirePair st p l) p l = wirePair st p l) := by
  intro h
  exact absurd (h ce5St 0 0 (by decide) (by decide)) (by decide)

/-- C5 (amended): re-wiring the same edge leaves the partition side
unchanged (`Partition.add_logical_disk` deduplicates by `Device I.D.`), but
`LogicalDisk.add_partition` is a plain append, so the logical disk's list
grows by a second copy of a partition it already contains. -/
theorem c5_amended (st : St) (p l : Nat) (hp : p < st.parts.length)
    (hl : l < st.lds.length) :
    (wirePair (wirePair st p l) p l).part p = (wirePair st p l).part p
    ∧ ((wirePair (wirePair st p l) p l).ld l).partitions
        = ((wirePair st p l).ld l).partitions ++ [p]
    ∧ p ∈ ((wirePair st p l).ld l).partitions := by
  refine ⟨wirePair_rewire_part st p l hp, ?_, ?_⟩
  · exact (wirePair_rewire_ld st p l hp hl).1
  · exact (wirePair_rewire_ld st p l hp hl).2

/-- C5 witness: the amended statement at the concrete one-partition,
one-logical-disk state. -/
theorem c5_witness :
    (wirePair (wirePair ce5St 0 0) 0 0).part 0 = (wirePair ce5St 0 0).part 0
    ∧ ((wirePair (wirePair ce5St 0 0) 0 0).ld 0).partitions
        = ((wirePair ce5St 0 0).ld 0).partitions ++ [0]
    ∧ 0 ∈ ((wirePair ce5St 0 0).ld 0).partitions :=
  c5_amended ce5St 0 0 (by decide) (by decide)

/-- C6 (counterexample): a disk that enumerates the same raw partition
record twice ends with that partition twice in its ordered list. -/
theorem c6_counterexample :
    ¬ (∀ recs d, d < (windowsParse recs).disks.length →
        ((windowsParse recs).disk d).partitions.Nodup) := by
  intro h
  exact absurd (h ce6Recs 0 (by decide)) (by decide)

/-- C6 (amended): the find-or-create lookup does keep the flat partition
index free of duplicate `Device I.D.`s (the existing instance is reused),
but `PhysicalDisk.add_partition` appends unconditionally: a disk's ordered
partition list holds one entry per raw record enumerated under it,
duplicates included. -/
theorem c6_amended : ∀ recs : List WinDiskRec,
    partIdsInjective (windowsParse recs)
    ∧ (windowsParse recs).disks.length = recs.length
    ∧ ∀ j, j < recs.length →
        ((windowsParse recs).disk j).partitions.length
          = (recs.getD j default).parts.length := by
  intro recs
  have h := windowsParse_disks recs ⟨[], [], [], [], [], []⟩
  refine ⟨partInj_windowsParse recs, ?_, ?_⟩
  · show (recs.foldl windowsDiskStep ⟨[], [], [], [], [], []⟩).disks.length = recs.length
    simpa using h.1
  · intro j hj
    have h2 := h.2.2 j hj
    simpa using h2

/-- C7 (counterexample): the dummy partition a direct disk mount creates is
registered in the System's flat partition index, and both partitions-only
walk modes print a line for it. -/
theorem c7_counterexample :
    ((linuxParse ce1Bds ce3Dfs).part 0).isdummy = true
    ∧ 0 ∈ (linuxParse ce1Bds ce3Dfs).sysParts
    ∧ Line.mk 2 (.partitionLine 0)
        ∈ partitionsOnlyDiskLinesT false (linuxParse ce1Bds ce3Dfs)
    ∧ Line.mk 2 (.partitionLine 0)
        ∈ partitionsOnlyLogicalLinesT false (linuxParse ce1Bds ce3Dfs) := by
  refine ⟨by decide, by decide, by decide, by decide⟩

/-- C7 (amended): each `df` record adds exactly one dummy partition per
physical disk whose path equals the record's source, every partition it adds
is such a dummy wrapping the matching disk and the record's logical disk; a
dummy prints no line of its own in the disk-first or logical-disk-first
walks, its logical disks print at the indent the partition line would have
used, but both partitions-only walk modes print every registered partition,
dummies included. -/
theorem c7_amended :
    (∀ st df, GraphWF st →
       ∀ d, dummiesFor (linuxDfStep st df) d
         = dummiesFor st d
           + (if d < st.disks.length ∧ (st.disk d).path = df.source then 1 else 0))
    ∧ (∀ st df, GraphWF st → ∀ r, st.parts.length ≤ r →
        r < (linuxDfStep st df).parts.length →
        ∃ dr l2, (linuxDfStep st df).part r = mkDummyPart dr l2
          ∧ (st.disk dr).path = df.source
          ∧ ((linuxDfStep st df).ld l2).name = df.target)
    ∧ (∀ lp lld st, noDummyLines st (diskFirstLinesT lp lld st))
    ∧ (∀ lp spd st, noDummyLines st (logicalDiskFirstLinesT lp spd st))
    ∧ (∀ st lld acc p, (st.part p).isdummy = true →
        diskFirstPartStep st lld acc p
          = (acc.1 - 2,
             if lld then
               acc.2 ++ (st.part p).logicalDisks.map
                 (fun l => emit acc.1 (.logicalDisk l))
             else acc.2))
    ∧ (∀ lld st, ∀ p ∈ st.sysParts,
        ∃ n, Line.mk n (.partitionLine p) ∈ partitionsOnlyDiskLinesT lld st)
    ∧ (∀ spd st, ∀ p ∈ st.sysParts,
        ∃ n, Line.mk n (.partitionLine p) ∈ partitionsOnlyLogicalLinesT spd st) := by
  refine ⟨?_, ?_, ?_, ?_, ?_, ?_, ?_⟩
  · intro st df h d
    exact (linuxDfStep_dummies st df h).1 d
  · intro st df h r hr1 hr2
    exact (linuxDfStep_dummies st df h).2 r hr1 hr2
  · intro lp lld st
    exact diskFirstLines_noDummy lp lld st
  · intro lp spd st
    exact logicalDiskFirstLines_noDummy lp spd st
  · intro st lld acc p hd
    exact diskFirstPartStep_dummy st lld acc p hd
  · intro lld st p hp
    exact partitionsOnlyDisk_mem lld st p hp
  · intro spd st p hp
    exact partitionsOnlyLogical_mem spd st p hp

/-- C8 (counterexample): in `sS` the human token comes first, but the parsed
Size toggle ends up raw — first occurrence does not decide. -/
theorem c8_counterexample :
    ¬ (∀ s : String, 's' ∈ s.toList → 'S' ∈ s.toList →
        ((parseDp s).2.2 = true ↔ firstSizeTok s = some 's')) := by
  intro h
  exact absurd (h "sS" (by decide) (by decide)) (by decide)

/-- C8 (amended): in all three per-entity-type option parsers the
human-readable-vs-raw Size toggle is decided by the LAST `s`/`S` token of
the string (each occurrence overwrites the toggle), with raw as the default
when neither token occurs. -/
theorem c8_amended : ∀ s : String,
    (parseDp s).2.2 = lastSizeHuman s.toList false
    ∧ (parsePp s).2.2.2 = lastSizeHuman s.toList false
    ∧ (parseLp s).2.2 = lastSizeHuman s.toList false :=
  fun s => ⟨parseDpGo_human s.toList [] false false,
    parsePpGo_human s.toList [] false false false,
    parseLpGo_human s.toList [] false false⟩

/-- C9 (counterexample): a `PermissionError` opening `/proc/partitions` is
not converted into the typed parse error — it escapes as the builtin
exception, which no `PyDiskInfoParseError` value equals. -/
theorem c9_counterexample :
    linuxBuild .permissionDenied (.output [])
      = .error (.uncaught "PermissionError")
    ∧ ∀ msg cause, BuildErr.uncaught "PermissionError"
        ≠ BuildErr.parseError msg cause := by
  exact ⟨rfl, fun msg cause h => by cases h⟩

/-- C9 (amended): a missing `/proc/partitions`, a failing `df` run and both
WMI failure modes each abort the build with the typed parse error carrying
the cause, and no state is returned; but a `PermissionError` opening
`/proc/partitions` escapes uncaught (only `FileNotFoundError` is handled).
Successful opens return the fully built graph. -/
theorem c9_amended :
    (∀ df, linuxBuild .fileNotFound df
      = .error (.parseError "Missing /proc/partitions. Giving up parsing."
          (some "FileNotFoundError")))
    ∧ (∀ df, linuxBuild .permissionDenied df
      = .error (.uncaught "PermissionError"))
    ∧ (∀ bds, linuxBuild (.content bds) .osError
      = .error (.parseError "Cant find the \"df\" command." (some "OSError")))
    ∧ (∀ bds dfs, linuxBuild (.content bds) (.output dfs)
      = .ok (linuxParse bds dfs))
    ∧ windowsBuild .accessDenied
      = .error (.parseError "Access to wmi is denied." (some "x_access_denied"))
    ∧ windowsBuild .authenticationFailed
      = .error (.parseError "Authentication error when opening wmi"
          (some "x_wmi_authentication"))
    ∧ (∀ recs, windowsBuild (.cursor recs) = .ok (windowsParse recs)) :=
  ⟨fun _ => rfl, fun _ => rfl, fun _ => rfl, fun _ _ => rfl, rfl, rfl,
   fun _ => rfl⟩

/-- C10 (confirmed): each public accessor returns a snapshot of the internal
collection and leaves the graph untouched; calling the same accessor again
with no intervening builder mutation returns equal contents.  Tuple
immutability is modelled by the snapshot being a pure value, so nothing done
with it can reach the graph. -/
theorem c10_getters_frame : ∀ st d p l,
    (systemGetPhysicalDisks st).2 = st
    ∧ (systemGetPartitions st).2 = st
    ∧ (systemGetLogicalDisks st).2 = st
    ∧ (physicalDiskGetPartitions st d).2 = st
    ∧ (partitionGetLogicalDisks st p).2 = st
    ∧ (logicalDiskGetPartitions st l).2 = st
    ∧ (systemGetPhysicalDisks (systemGetPhysicalDisks st).2).1
        = (systemGetPhysicalDisks st).1
    ∧ (systemGetPartitions (systemGetPartitions st).2).1
        = (systemGetPartitions st).1
    ∧ (systemGetLogicalDisks (systemGetLogicalDisks st).2).1
        = (systemGetLogicalDisks st).1
    ∧ (physicalDiskGetPartitions (physicalDiskGetPartitions st d).2 d).1
        = (physicalDiskGetPartitions st d).1
    ∧ (partitionGetLogicalDisks (partitionGetLogicalDisks st p).2 p).1
        = (partitionGetLogicalDisks st p).1
    ∧ (logicalDiskGetPartitions (logicalDiskGetPartitions st l).2 l).1
        = (logicalDiskGetPartitions st l).1 :=
  fun _ _ _ _ =>
    ⟨rfl, rfl, rfl, rfl, rfl, rfl, rfl, rfl, rfl, rfl, rfl, rfl⟩

end PyDiskInfo
